import Mathlib

set_option maxRecDepth 8000

/-!
Verification development for the decision-and-state loop of
`src/pokemonVLMbot.py` (class `PokemonVLMBot`).

The Python values that flow through the program (JSON-decoded analysis
dictionaries, the mutable `game_state` dictionary, history entries) are
modelled by the inductive type `JValue`; Python `dict`s keyed by strings
are association lists in key-insertion order, matching CPython's
insertion-ordered dictionaries.  Text is modelled as `List Char`.

The standard-library calls made by the source are modelled faithfully on
the fragment the program exercises:
* `json.loads` is modelled by `json_loads` (strict JSON with integer
  numerals; float literals, `NaN`/`Infinity` and lone surrogates are
  rejected by the model, and none of them occur in the verified claims);
* `json.dump` is modelled by `jdump` (canonical serialization; the
  `indent=2` pretty-printing whitespace of the source is omitted, which
  `json.loads` ignores on re-reading);
* `str.find`/`str.rfind`/slicing/`str.lower`/`in` are modelled by
  `pyFind`, `pyRFind`, `pySlice`, `lowerList`, `containsSub`;
* `int(...)` coercion is modelled by `pyToInt`;
* `datetime.now().isoformat()` and `random.choice` are ambient inputs and
  are passed in explicitly (a timestamp argument, a pick index).
-/

/-- Values of the JSON/Python-object fragment the bot manipulates:
null/None, booleans, integers, strings, lists, and insertion-ordered
string-keyed dictionaries. -/
inductive JValue : Type where
  | jnull : JValue
  | jbool : Bool → JValue
  | jint : Int → JValue
  | jstr : List Char → JValue
  | jarr : List JValue → JValue
  | jobj : List (List Char × JValue) → JValue

mutual

/-- Structural equality on `JValue` (Python `==` restricted to the value
shapes the program actually compares: a value against itself, or `None`
against a string). -/
def jeq : JValue → JValue → Bool
  | .jnull, .jnull => true
  | .jbool a, .jbool b => a == b
  | .jint a, .jint b => a == b
  | .jstr a, .jstr b => a == b
  | .jarr a, .jarr b => jeqList a b
  | .jobj a, .jobj b => jeqPairs a b
  | _, _ => false

/-- Pointwise equality of value lists. -/
def jeqList : List JValue → List JValue → Bool
  | [], [] => true
  | x :: xs, y :: ys => jeq x y && jeqList xs ys
  | _, _ => false

/-- Pointwise equality of key-value binding lists. -/
def jeqPairs : List (List Char × JValue) → List (List Char × JValue) → Bool
  | [], [] => true
  | (k1, v1) :: xs, (k2, v2) :: ys => k1 == k2 && jeq v1 v2 && jeqPairs xs ys
  | _, _ => false

end

mutual

def jeq_iff : ∀ a b : JValue, jeq a b = true ↔ a = b
  | .jnull, b => by cases b <;> simp [jeq]
  | .jbool a, b => by cases b <;> simp [jeq]
  | .jint a, b => by cases b <;> simp [jeq]
  | .jstr a, b => by cases b <;> simp [jeq]
  | .jarr a, b => by
      cases b <;> simp only [jeq, Bool.false_eq_true, false_iff] <;>
        try exact fun h => JValue.noConfusion h
      rw [jeqList_iff]
      exact ⟨fun h => by rw [h], fun h => by injection h⟩
  | .jobj a, b => by
      cases b <;> simp only [jeq, Bool.false_eq_true, false_iff] <;>
        try exact fun h => JValue.noConfusion h
      rw [jeqPairs_iff]
      exact ⟨fun h => by rw [h], fun h => by injection h⟩

def jeqList_iff : ∀ xs ys : List JValue, jeqList xs ys = true ↔ xs = ys
  | [], [] => by simp [jeqList]
  | [], _ :: _ => by simp [jeqList]
  | _ :: _, [] => by simp [jeqList]
  | x :: xs, y :: ys => by
      simp only [jeqList, Bool.and_eq_true, jeq_iff x y, jeqList_iff xs ys,
        List.cons.injEq]

def jeqPairs_iff : ∀ xs ys : List (List Char × JValue), jeqPairs xs ys = true ↔ xs = ys
  | [], [] => by simp [jeqPairs]
  | [], _ :: _ => by simp [jeqPairs]
  | _ :: _, [] => by simp [jeqPairs]
  | (k1, v1) :: xs, (k2, v2) :: ys => by
      simp only [jeqPairs, Bool.and_eq_true, beq_iff_eq, jeq_iff v1 v2,
        jeqPairs_iff xs ys, List.cons.injEq, Prod.mk.injEq, and_assoc]

end

instance : DecidableEq JValue := fun a b => decidable_of_iff (jeq a b = true) (jeq_iff a b)

/-- A Python dictionary with string keys, in key-insertion order. -/
abbrev PyDict := List (List Char × JValue)

/-- First-match association lookup: Python `d[k]` / `k in d` on a dict
whose keys are unique (the parser and the program maintain uniqueness). -/
def plookup : PyDict → List Char → Option JValue
  | [], _ => none
  | (k, v) :: rest, key => if k = key then some v else plookup rest key

/-- Python `d.get(key, dflt)`: the stored value when the key is present
(even when that value is `None`), otherwise the default. -/
def pyGetDefault (d : PyDict) (key : List Char) (dflt : JValue) : JValue :=
  (plookup d key).getD dflt

/-- Python `d[k] = v` on an insertion-ordered dict: replace the value in
place when the key exists, otherwise append the binding at the end. -/
def objInsert : PyDict → List Char → JValue → PyDict
  | [], k, v => [(k, v)]
  | (k', v') :: rest, k, v =>
      if k' = k then (k', v) :: rest else (k', v') :: objInsert rest k v

/-- Python `d.setdefault(k, v)`: insert `(k, v)` at the end only when the
key is absent. -/
def setdefault (d : PyDict) (k : List Char) (v : JValue) : PyDict :=
  if (plookup d k).isSome then d else d ++ [(k, v)]

/-! ## Text utilities (Python string primitives used by the source) -/

/-- Python `str.lower()` on the ASCII fragment the bot's vocabulary uses. -/
def lowerList (s : List Char) : List Char := s.map Char.toLower

/-- Whether `needle` starts `hay`. -/
def startsWith : List Char → List Char → Bool
  | [], _ => true
  | _ :: _, [] => false
  | n :: ns, h :: hs => n == h && startsWith ns hs

/-- Python substring containment `needle in hay`. -/
def containsSub (needle : List Char) : List Char → Bool
  | [] => needle.isEmpty
  | h :: hs => startsWith needle (h :: hs) || containsSub needle hs

/-- Python `str.find(c)`: index of the first occurrence, `-1` when absent. -/
def pyFind : List Char → Char → Int
  | [], _ => -1
  | c :: rest, t =>
      if c = t then 0
      else
        let r := pyFind rest t
        if r = -1 then -1 else r + 1

/-- Python `str.rfind(c)`: index of the last occurrence, `-1` when absent. -/
def pyRFind (l : List Char) (t : Char) : Int :=
  let r := pyFind l.reverse t
  if r = -1 then -1 else (l.length : Int) - 1 - r

/-- Python slice `l[a:b]` for non-negative bounds. -/
def pySlice (l : List Char) (a b : Nat) : List Char := (l.take b).drop a

/-! ## ActionMap: `button_mappings` (lines 43-68) and `send_input` (98-111) -/

/-- Mapping table from action names to device keycodes, in the source's
insertion order: the 10 canonical buttons followed by 12 flexible aliases. -/
def button_mappings : List (List Char × List Char) :=
  [ ("a".toList, "KEYCODE_BUTTON_A".toList),
    ("b".toList, "KEYCODE_BUTTON_B".toList),
    ("start".toList, "KEYCODE_BUTTON_START".toList),
    ("select".toList, "KEYCODE_BUTTON_SELECT".toList),
    ("up".toList, "KEYCODE_DPAD_UP".toList),
    ("down".toList, "KEYCODE_DPAD_DOWN".toList),
    ("left".toList, "KEYCODE_DPAD_LEFT".toList),
    ("right".toList, "KEYCODE_DPAD_RIGHT".toList),
    ("l".toList, "KEYCODE_BUTTON_L1".toList),
    ("r".toList, "KEYCODE_BUTTON_R1".toList),
    ("move_up".toList, "KEYCODE_DPAD_UP".toList),
    ("move_down".toList, "KEYCODE_DPAD_DOWN".toList),
    ("move_left".toList, "KEYCODE_DPAD_LEFT".toList),
    ("move_right".toList, "KEYCODE_DPAD_RIGHT".toList),
    ("go_up".toList, "KEYCODE_DPAD_UP".toList),
    ("go_down".toList, "KEYCODE_DPAD_DOWN".toList),
    ("go_left".toList, "KEYCODE_DPAD_LEFT".toList),
    ("go_right".toList, "KEYCODE_DPAD_RIGHT".toList),
    ("press_a".toList, "KEYCODE_BUTTON_A".toList),
    ("press_b".toList, "KEYCODE_BUTTON_B".toList),
    ("press_start".toList, "KEYCODE_BUTTON_START".toList),
    ("press_select".toList, "KEYCODE_BUTTON_SELECT".toList) ]

/-- Keycode lookup `self.button_mappings.get(action)` for a string action. -/
def bmLookup (action : List Char) : Option (List Char) :=
  (button_mappings.find? (fun p => p.1 = action)).map Prod.snd

/-- Model of `send_input` (lines 98-111): first component is the returned
boolean, second the keyevents issued to the device.  `adb_ok` abstracts the
success of the `adb` subprocess call; a `.get` miss (unknown string, or a
non-string action, whose dictionary probe Python answers with `None` or a
caught `TypeError`) returns `False` before any device command. -/
def send_input_model (adb_ok : Bool) (action : JValue) : Bool × List (List Char) :=
  match action with
  | .jstr a =>
      match bmLookup a with
      | some code => (adb_ok, [code])
      | none => (false, [])
  | _ => (false, [])

/-! ## ResponseParser fallback: `_fallback_parse` (lines 161-175) -/

/-- Iteration `for action in self.button_mappings: if action in text.lower()`:
first table key (in insertion order) occurring in the lowered text. -/
def findFirstKey : List (List Char × List Char) → List Char → Option (List Char)
  | [], _ => none
  | (k, _) :: rest, lowText =>
      if containsSub k lowText then some k else findFirstKey rest lowText

/-- Model of `_fallback_parse` (lines 161-175). -/
def fallback_parse (text : List Char) : PyDict :=
  match findFirstKey button_mappings (lowerList text) with
  | some k =>
      [ ("action".toList, .jstr k),
        ("reasoning".toList, .jstr text),
        ("scene_description".toList, .jstr "Parsing failed, used fallback.".toList),
        ("confidence".toList, .jint 3) ]
  | none =>
      [ ("action".toList, .jstr "wait".toList),
        ("reasoning".toList, .jstr "Unable to determine action".toList),
        ("scene_description".toList, .jstr text),
        ("confidence".toList, .jint 1) ]

/-! ## Model of `json.loads` (strict JSON, integer numerals) -/

/-- JSON whitespace (the characters Python's decoder skips). -/
def isWsChar (c : Char) : Bool := c = ' ' || c = '\t' || c = '\n' || c = '\r'

/-- Drop leading JSON whitespace. -/
def skipWs : List Char → List Char
  | [] => []
  | c :: cs => if isWsChar c then skipWs cs else c :: cs

/-- Value of one hexadecimal digit. -/
def hexVal (c : Char) : Option Nat :=
  if '0' ≤ c ∧ c ≤ '9' then some (c.toNat - 48)
  else if 'a' ≤ c ∧ c ≤ 'f' then some (c.toNat - 87)
  else if 'A' ≤ c ∧ c ≤ 'F' then some (c.toNat - 55)
  else none

/-- Decimal value of one digit character. -/
def digitVal (c : Char) : Nat := c.toNat - 48

/-- Decimal value of a digit string. -/
def digitsVal (l : List Char) : Nat := l.foldl (fun acc c => acc * 10 + digitVal c) 0

/-- Decode one single-character escape (the character after the
backslash); `none` for invalid escapes. -/
def unescapeChar (e : Char) : Option Char :=
  if e = '"' then some '"'
  else if e = '\\' then some '\\'
  else if e = '/' then some '/'
  else if e = 'b' then some '\x08'
  else if e = 'f' then some '\x0c'
  else if e = 'n' then some '\n'
  else if e = 'r' then some '\r'
  else if e = 't' then some '\t'
  else none

/-- Decode a `\uXXXX` escape body (the four hex digits and, for a high
surrogate, the paired low-surrogate escape), returning the decoded
character and the remaining input.  Lone surrogates are rejected (a model
restriction; Python admits them as unpaired surrogate code points, which
`Char` cannot represent). -/
def parseUEscape : List Char → Option (Char × List Char)
  | h1 :: h2 :: h3 :: h4 :: rest3 =>
      match hexVal h1, hexVal h2, hexVal h3, hexVal h4 with
      | some a1, some a2, some a3, some a4 =>
        let v := ((a1 * 16 + a2) * 16 + a3) * 16 + a4
        if 0xD800 ≤ v ∧ v ≤ 0xDBFF then
          match rest3 with
          | '\\' :: 'u' :: g1 :: g2 :: g3 :: g4 :: rest4 =>
            match hexVal g1, hexVal g2, hexVal g3, hexVal g4 with
            | some b1, some b2, some b3, some b4 =>
              let w := ((b1 * 16 + b2) * 16 + b3) * 16 + b4
              if 0xDC00 ≤ w ∧ w ≤ 0xDFFF then
                some (Char.ofNat (0x10000 + (v - 0xD800) * 0x400 + (w - 0xDC00)), rest4)
              else none
            | _, _, _, _ => none
          | _ => none
        else if 0xDC00 ≤ v ∧ v ≤ 0xDFFF then none
        else some (Char.ofNat v, rest3)
      | _, _, _, _ => none
  | _ => none

/-- String-body scanner: the content after an opening quote, returning the
decoded characters and the input after the closing quote; handles the
standard escapes and `\uXXXX`, rejecting control characters as strict
JSON does.  Fuel-bounded structurally; every step consumes at least one
character, so callers pass `length + 1`. -/
def parseStringRest : Nat → List Char → Option (List Char × List Char)
  | 0, _ => none
  | _, [] => none
  | Nat.succ fuel, c :: rest =>
    if c = '"' then some ([], rest)
    else if c = '\\' then
      match rest with
      | [] => none
      | e :: rest2 =>
        if e = 'u' then
          match parseUEscape rest2 with
          | none => none
          | some (ch, rest3) =>
              (parseStringRest fuel rest3).map (fun p => (ch :: p.1, p.2))
        else
          match unescapeChar e with
          | none => none
          | some ch => (parseStringRest fuel rest2).map (fun p => (ch :: p.1, p.2))
    else if c.toNat < 32 then none
    else (parseStringRest fuel rest).map (fun p => (c :: p.1, p.2))

/-- Unsigned integer numeral: maximal digit run, rejecting leading zeros
and (as a model restriction) any fraction or exponent continuation. -/
def parseNatTok (s : List Char) : Option (Nat × List Char) :=
  let ds := s.takeWhile Char.isDigit
  let rest := s.dropWhile Char.isDigit
  if ds.isEmpty then none
  else if ds.head? = some '0' ∧ 1 < ds.length then none
  else
    match rest with
    | '.' :: _ => none
    | 'e' :: _ => none
    | 'E' :: _ => none
    | _ => some (digitsVal ds, rest)

/-- Signed integer numeral. -/
def parseNum (s : List Char) : Option (JValue × List Char) :=
  match s with
  | [] => none
  | c :: rest =>
    if c = '-' then (parseNatTok rest).map (fun p => (JValue.jint (-(p.1 : Int)), p.2))
    else (parseNatTok s).map (fun p => (JValue.jint (p.1 : Int), p.2))

mutual

/-- One JSON value, fuel-bounded.  Every recursive call strictly consumes
input before spending a unit of fuel, so `length + 1` fuel always
suffices (`json_loads` below). -/
def parseVal : Nat → List Char → Option (JValue × List Char)
  | 0, _ => none
  | Nat.succ fuel, s =>
    match skipWs s with
    | [] => none
    | c :: rest =>
      if c = '\x7b' then
        match skipWs rest with
        | [] => none
        | c2 :: r2 =>
          if c2 = '\x7d' then some (.jobj [], r2)
          else if c2 = '"' then
            match parseStringRest (r2.length + 1) r2 with
            | none => none
            | some (key, r3) =>
              match skipWs r3 with
              | ':' :: r4 =>
                match parseVal fuel r4 with
                | none => none
                | some (v, r5) => parseObjRest fuel (objInsert [] key v) r5
              | _ => none
          else none
      else if c = '[' then
        match skipWs rest with
        | [] => none
        | c2 :: r2 =>
          if c2 = ']' then some (.jarr [], r2)
          else
            match parseVal fuel rest with
            | none => none
            | some (v, r3) => parseArrRest fuel [v] r3
      else if c = '"' then
        (parseStringRest (rest.length + 1) rest).map (fun p => (JValue.jstr p.1, p.2))
      else if c = 't' then
        match rest with
        | 'r' :: 'u' :: 'e' :: r => some (.jbool true, r)
        | _ => none
      else if c = 'f' then
        match rest with
        | 'a' :: 'l' :: 's' :: 'e' :: r => some (.jbool false, r)
        | _ => none
      else if c = 'n' then
        match rest with
        | 'u' :: 'l' :: 'l' :: r => some (.jnull, r)
        | _ => none
      else if c = '-' || c.isDigit then parseNum (c :: rest)
      else none

/-- Remaining members of an object after the first, accumulating with the
dictionary-overwrite semantics of Python's decoder. -/
def parseObjRest : Nat → PyDict → List Char → Option (JValue × List Char)
  | 0, _, _ => none
  | Nat.succ fuel, acc, s =>
    match skipWs s with
    | [] => none
    | c :: r =>
      if c = '\x7d' then some (.jobj acc, r)
      else if c = ',' then
        match skipWs r with
        | '"' :: r2 =>
          match parseStringRest (r2.length + 1) r2 with
          | none => none
          | some (key, r3) =>
            match skipWs r3 with
            | ':' :: r4 =>
              match parseVal fuel r4 with
              | none => none
              | some (v, r5) => parseObjRest fuel (objInsert acc key v) r5
            | _ => none
        | _ => none
      else none

/-- Remaining elements of an array after the first. -/
def parseArrRest : Nat → List JValue → List Char → Option (JValue × List Char)
  | 0, _, _ => none
  | Nat.succ fuel, acc, s =>
    match skipWs s with
    | [] => none
    | c :: r =>
      if c = ']' then some (.jarr acc, r)
      else if c = ',' then
        match parseVal fuel r with
        | none => none
        | some (v, r2) => parseArrRest fuel (acc ++ [v]) r2
      else none

end

/-- Model of `json.loads`: parse one value and require only whitespace
after it. -/
def json_loads (s : List Char) : Option JValue :=
  match parseVal (s.length + 1) s with
  | some (v, rest) => if skipWs rest = [] then some v else none
  | none => none

/-! ## Model of `json.dump` serialization -/

/-- Decimal digit character. -/
def digitChar (n : Nat) : Char :=
  if n = 0 then '0' else if n = 1 then '1' else if n = 2 then '2' else if n = 3 then '3'
  else if n = 4 then '4' else if n = 5 then '5' else if n = 6 then '6' else if n = 7 then '7'
  else if n = 8 then '8' else '9'

/-- Decimal digits, fuel-bounded so that the kernel can evaluate it; the
fuel argument never runs out when it starts at the number itself
(`natDump`), since dividing by ten strictly decreases a number of ten or
more. -/
def natDumpFuel : Nat → Nat → List Char
  | 0, n => [digitChar n]
  | Nat.succ f, n =>
      if n < 10 then [digitChar n]
      else natDumpFuel f (n / 10) ++ [digitChar (n % 10)]

/-- Decimal digits of a natural number, most significant first. -/
def natDump (n : Nat) : List Char := natDumpFuel n n

/-- Decimal numeral of an integer. -/
def intDump (n : Int) : List Char :=
  if n < 0 then '-' :: natDump (-n).toNat else natDump n.toNat

/-- Lowercase hexadecimal digit character. -/
def hexChar (n : Nat) : Char :=
  if n < 10 then digitChar n
  else if n = 10 then 'a' else if n = 11 then 'b' else if n = 12 then 'c'
  else if n = 13 then 'd' else if n = 14 then 'e' else 'f'

/-- Four lowercase hex digits of a value below `0x10000`. -/
def hex4 (v : Nat) : List Char :=
  [hexChar (v / 4096 % 16), hexChar (v / 256 % 16), hexChar (v / 16 % 16), hexChar (v % 16)]

/-- Escape one character as Python's `ensure_ascii` serializer does:
quote/backslash and the short control escapes, `\uXXXX` for other control
or non-ASCII characters (surrogate pairs beyond the BMP). -/
def escapeChar (c : Char) : List Char :=
  if c = '"' then ['\\', '"']
  else if c = '\\' then ['\\', '\\']
  else if c = '\n' then ['\\', 'n']
  else if c = '\t' then ['\\', 't']
  else if c = '\r' then ['\\', 'r']
  else if c = '\x08' then ['\\', 'b']
  else if c = '\x0c' then ['\\', 'f']
  else if c.toNat < 32 ∨ 127 ≤ c.toNat then
    if c.toNat ≤ 0xFFFF then '\\' :: 'u' :: hex4 c.toNat
    else
      let v := c.toNat - 0x10000
      '\\' :: 'u' :: (hex4 (0xD800 + v / 0x400) ++ '\\' :: 'u' :: hex4 (0xDC00 + v % 0x400))
  else [c]

/-- Escape a whole string body. -/
def escapeStr : List Char → List Char
  | [] => []
  | c :: rest => escapeChar c ++ escapeStr rest

mutual

/-- Serialize a value (compact form; `json.load` ignores the `indent=2`
whitespace the source adds, so whitespace is omitted here). -/
def jdump : JValue → List Char
  | .jnull => ['n', 'u', 'l', 'l']
  | .jbool true => ['t', 'r', 'u', 'e']
  | .jbool false => ['f', 'a', 'l', 's', 'e']
  | .jint n => intDump n
  | .jstr s => '"' :: (escapeStr s ++ ['"'])
  | .jarr [] => ['[', ']']
  | .jarr (x :: xs) => '[' :: (jdump x ++ (jdumpArrTail xs ++ [']']))
  | .jobj [] => ['\x7b', '\x7d']
  | .jobj (m :: ms) => '\x7b' :: (dumpMember m ++ (jdumpObjTail ms ++ ['\x7d']))

/-- Serialize one `"key": value` member. -/
def dumpMember : List Char × JValue → List Char
  | (k, v) => '"' :: (escapeStr k ++ ('"' :: ':' :: jdump v))

/-- Serialize the tail elements of an array, each preceded by a comma. -/
def jdumpArrTail : List JValue → List Char
  | [] => []
  | x :: xs => ',' :: (jdump x ++ jdumpArrTail xs)

/-- Serialize the tail members of an object, each preceded by a comma. -/
def jdumpObjTail : List (List Char × JValue) → List Char
  | [] => []
  | m :: ms => ',' :: (dumpMember m ++ jdumpObjTail ms)

end

/-! ## Well-formed values (round-trip hypothesis) -/

/-- Printable-ASCII character: the string fragment on which the
serializer model coincides exactly with Python's and round-trips. -/
def plainChar (c : Char) : Bool := 32 ≤ c.toNat && c.toNat ≤ 126

/-- All characters printable ASCII. -/
def plainStr (s : List Char) : Bool := s.all plainChar

/-- Key absent from a binding list. -/
def keyNotIn (k : List Char) : List (List Char × JValue) → Bool
  | [] => true
  | (k', _) :: rest => !(k' == k) && keyNotIn k rest

/-- Keys pairwise distinct (every Python dict satisfies this). -/
def nodupKeysB : PyDict → Bool
  | [] => true
  | (k, _) :: rest => keyNotIn k rest && nodupKeysB rest

mutual

/-- Well-formed value: strings (and keys) printable ASCII, dictionary keys
unique — the invariant every value built by the Python program has, up to
the printable-ASCII restriction of the string model. -/
def jwf : JValue → Bool
  | .jnull => true
  | .jbool _ => true
  | .jint _ => true
  | .jstr s => plainStr s
  | .jarr xs => jwfList xs
  | .jobj ms => nodupKeysB ms && jwfPairs ms

/-- Well-formedness of each element. -/
def jwfList : List JValue → Bool
  | [] => true
  | x :: xs => jwf x && jwfList xs

/-- Well-formedness of each binding. -/
def jwfPairs : List (List Char × JValue) → Bool
  | [] => true
  | (k, v) :: ms => plainStr k && jwf v && jwfPairs ms

end

/-! ## ResponseParser: `_parse_gemini_response` (lines 147-159) -/

/-- The literal placeholder backfilled into missing decision fields. -/
def notProvided : JValue := .jstr "Not provided".toList

/-- Lines 153-154: `parsed.setdefault(field, "Not provided")` for
`action`, `reasoning`, `scene_description`, in that order. -/
def backfill (d : PyDict) : PyDict :=
  setdefault
    (setdefault
      (setdefault d "action".toList notProvided)
      "reasoning".toList notProvided)
    "scene_description".toList notProvided

/-- Line 151's branch condition `start != -1 and end != -1`, with
`start = response_text.find('\x7b')` and `end = response_text.rfind('\x7d') + 1`
from lines 149-150. -/
def braceCondition (text : List Char) : Bool :=
  decide (pyFind text '\x7b' ≠ -1 ∧ pyRFind text '\x7d' + 1 ≠ -1)

/-- The spec's wording of when structured decoding is attempted: "locate
the first `\x7b` and the last `\x7d` in the raw text; if both exist".
Kept separate from `braceCondition` to compare the code's test with the
spec's description. -/
def bracesExist (text : List Char) : Bool :=
  decide (pyFind text '\x7b' ≠ -1 ∧ pyRFind text '\x7d' ≠ -1)

/-- The substring `response_text[start:end]` handed to `json.loads`. -/
def decodeSlice (text : List Char) : List Char :=
  pySlice text (pyFind text '\x7b').toNat (pyRFind text '\x7d' + 1).toNat

/-- Model of `_parse_gemini_response` (lines 147-159).  `none` models an
uncaught exception escaping the method (only `json.JSONDecodeError` is
caught); totality — that this never happens — is proved below. -/
def parse_gemini_response (text : List Char) : Option PyDict :=
  if braceCondition text then
    match json_loads (decodeSlice text) with
    | some (.jobj fields) => some (backfill fields)
    | some _ => none
    | none => some (fallback_parse text)
  else some (fallback_parse text)

/-! ## GameStateStore: the `game_state` record and `update_game_state` -/

/-- Model of `int(x)` for a decoded JSON value: integers pass through,
booleans coerce to 0/1, strings parse as (sign-prefixed, whitespace-
trimmed) decimal numerals, everything else raises (`none` here). -/
def strToInt (s : List Char) : Option Int :=
  let t := (((s.dropWhile isWsChar).reverse).dropWhile isWsChar).reverse
  match t with
  | '-' :: ds => if ds ≠ [] ∧ ds.all Char.isDigit then some (-(digitsVal ds : Int)) else none
  | '+' :: ds => if ds ≠ [] ∧ ds.all Char.isDigit then some ((digitsVal ds : Int)) else none
  | ds => if ds ≠ [] ∧ ds.all Char.isDigit then some ((digitsVal ds : Int)) else none

/-- Python `int(...)` on a decoded value. -/
def pyToInt : JValue → Option Int
  | .jint n => some n
  | .jbool b => some (if b then 1 else 0)
  | .jstr s => strToInt s
  | _ => none

/-- Lines 181-184: `int(analysis.get("panic_level", 0))` with
`ValueError`/`TypeError` mapped to 0. -/
def panic_level_of (analysis : PyDict) : Int :=
  (pyToInt (pyGetDefault analysis "panic_level".toList (.jint 0))).getD 0

/-- The `self.game_state` record (lines 29-38), with the field types every
write in the source maintains. -/
structure GameState where
  current_location : JValue
  party_pokemon : List JValue
  inventory : List JValue
  objectives : List JValue
  panic_mode : Bool
  stuck_counter : Int
  last_action : JValue
  reasoning_history : List PyDict
  deriving DecidableEq

/-- The state built by `__init__` (lines 29-38). -/
def initial_game_state : GameState :=
  { current_location := .jstr []
    party_pokemon := []
    inventory := []
    objectives := []
    panic_mode := false
    stuck_counter := 0
    last_action := .jstr []
    reasoning_history := [] }

/-- The history record appended by lines 197-202; the timestamp
(`datetime.now().isoformat()`) is an explicit input. -/
def histEntry (analysis : PyDict) (ts : List Char) : PyDict :=
  [ ("timestamp".toList, .jstr ts),
    ("reasoning".toList, pyGetDefault analysis "reasoning".toList (.jstr [])),
    ("action".toList, pyGetDefault analysis "action".toList (.jstr "wait".toList)),
    ("confidence".toList, pyGetDefault analysis "confidence".toList (.jint 0)) ]

/-- Model of `update_game_state` (lines 177-205), preserving the source's
statement order.  Note that line 179 assigns `last_action` before line 192
compares `analysis.get("action")` against `game_state.get("last_action")`,
so the comparison sees the freshly assigned value, and that line 186
assigns `panic_mode` unconditionally before the `elif` on line 189. -/
def update_game_state (s : GameState) (analysis : PyDict) (ts : List Char) : GameState :=
  let loc := pyGetDefault analysis "current_location".toList (.jstr "Unknown".toList)
  let la := pyGetDefault analysis "action".toList (.jstr "wait".toList)
  let pl := panic_level_of analysis
  let pm0 := decide (pl ≥ 7)
  let pm := if pl ≥ 7 then pm0 else if pl ≤ 3 then false else pm0
  let sc := if pyGetDefault analysis "action".toList .jnull = la then s.stuck_counter + 1 else 0
  let h1 := s.reasoning_history ++ [histEntry analysis ts]
  let h2 := if h1.length > 50 then h1.drop (h1.length - 50) else h1
  { current_location := loc
    party_pokemon := s.party_pokemon
    inventory := s.inventory
    objectives := s.objectives
    panic_mode := pm
    stuck_counter := sc
    last_action := la
    reasoning_history := h2 }

/-- Iterated updates (used to state the 51-call property). -/
def runUpdates (s : GameState) (inputs : List (PyDict × List Char)) : GameState :=
  inputs.foldl (fun st p => update_game_state st p.1 p.2) s

/-! ## DecisionLoop: `handle_stuck_state` (220-227) and one loop body -/

/-- The fixed corrective-action candidate set of line 223. -/
def stuck_actions : List (List Char) :=
  ["up".toList, "down".toList, "left".toList, "right".toList, "b".toList, "start".toList]

/-- Model of `handle_stuck_state` (lines 220-227).  `random.choice` is
modelled by an ambient pick index reduced modulo the candidate count.
Besides the new state, the model returns the source's boolean result and
the list of action names passed to `send_input`. -/
def handle_stuck_state (s : GameState) (pick : Nat) : GameState × Bool × List JValue :=
  if s.stuck_counter > 10 then
    ({ s with stuck_counter := 0 }, true, [.jstr (stuck_actions.getD (pick % 6) [])])
  else (s, false, [])

/-- Ambient inputs of one `run_game_loop` iteration (lines 231-251):
whether the screenshot succeeded, the parsed analysis the Gemini stage
produced, the random pick for stuck recovery, and the timestamp. -/
structure IterOracle where
  screenshot_ok : Bool
  analysis : PyDict
  pick : Nat
  ts : List Char

/-- The ACTING step (lines 247-249): the action names passed to
`send_input` when the stuck handler did not fire. -/
def acting_emission (analysis : PyDict) : List JValue :=
  let action := pyGetDefault analysis "action".toList (.jstr "wait".toList)
  if action = .jstr "wait".toList then [] else [action]

/-- One iteration of `run_game_loop` (lines 232-251), from the decision
analysis on: returns the resulting state and the action names passed to
`send_input` during the iteration. -/
def run_iteration (s : GameState) (o : IterOracle) : GameState × List JValue :=
  if o.screenshot_ok then
    let s1 := update_game_state s o.analysis o.ts
    match handle_stuck_state s1 o.pick with
    | (s2, true, sent) => (s2, sent)
    | (s2, false, _) => (s2, acting_emission o.analysis)
  else (s, [])

/-! ## Persistence: `save_game_state` (261-267) and `load_game_state` (269-275) -/

/-- The `game_state` dictionary as the JSON document `json.dump` writes,
with the key order of `__init__`. -/
def stateToJson (s : GameState) : JValue :=
  .jobj
    [ ("current_location".toList, s.current_location),
      ("party_pokemon".toList, .jarr s.party_pokemon),
      ("inventory".toList, .jarr s.inventory),
      ("objectives".toList, .jarr s.objectives),
      ("panic_mode".toList, .jbool s.panic_mode),
      ("stuck_counter".toList, .jint s.stuck_counter),
      ("last_action".toList, s.last_action),
      ("reasoning_history".toList, .jarr (s.reasoning_history.map .jobj)) ]

/-- Serialized file content written by `save_game_state`. -/
def save_game_state (s : GameState) : List Char := jdump (stateToJson s)

/-- Decode a list of history entries (each must be an object). -/
def decodeDicts : List JValue → Option (List PyDict)
  | [] => some []
  | .jobj d :: rest => (decodeDicts rest).map (d :: ·)
  | _ => none

/-- Read a loaded JSON document back into the typed state record;
`none` when the document does not have the state's shape (such a document
is representable by the untyped Python dict but outside this typed
model — it cannot come from `save_game_state`). -/
def jsonToState : JValue → Option GameState
  | .jobj d =>
    match plookup d "current_location".toList, plookup d "party_pokemon".toList,
          plookup d "inventory".toList, plookup d "objectives".toList,
          plookup d "panic_mode".toList, plookup d "stuck_counter".toList,
          plookup d "last_action".toList, plookup d "reasoning_history".toList with
    | some cl, some (.jarr pp), some (.jarr inv), some (.jarr obj),
      some (.jbool pm), some (.jint sc), some la, some (.jarr rh) =>
        (decodeDicts rh).map
          (fun hist =>
            { current_location := cl, party_pokemon := pp, inventory := inv,
              objectives := obj, panic_mode := pm, stuck_counter := sc,
              last_action := la, reasoning_history := hist })
    | _, _, _, _, _, _, _, _ => none
  | _ => none

/-- Model of `load_game_state` (lines 269-275): a missing file
(`file = none`) or an undecodable one leaves the state unchanged (the
`except` branch logs and returns); a decodable file replaces the state
wholesale. -/
def load_game_state (file : Option (List Char)) (s : GameState) : Option GameState :=
  match file with
  | none => some s
  | some txt =>
    match json_loads txt with
    | none => some s
    | some v => jsonToState v

/-- Token boundary for numeral parsing: the continuation cannot extend the
numeral (used as a side condition of the round-trip lemmas). -/
def tokEnd : List Char → Bool
  | [] => true
  | c :: _ => !(c.isDigit || c = '.' || c = 'e' || c = 'E')

/-! # Lemmas about the fallback scanner -/

theorem findFirstKey_first (k v : List Char) (rest : List (List Char × List Char))
    (low : List Char) (h : containsSub k low = true) :
    findFirstKey ((k, v) :: rest) low = some k := by
  simp [findFirstKey, h]

theorem findFirstKey_none (table : List (List Char × List Char)) (low : List Char)
    (h : ∀ k ∈ table.map Prod.fst, containsSub k low = false) :
    findFirstKey table low = none := by
  induction table with
  | nil => rfl
  | cons p rest ih =>
      obtain ⟨k, v⟩ := p
      simp only [findFirstKey]
      rw [h k (by simp)]
      simpa using ih (fun k' hk' => h k' (by simp [hk']))

theorem findFirstKey_contains (table : List (List Char × List Char)) (low k : List Char)
    (h : findFirstKey table low = some k) : containsSub k low = true := by
  induction table with
  | nil => simp [findFirstKey] at h
  | cons p rest ih =>
      obtain ⟨k0, v0⟩ := p
      simp only [findFirstKey] at h
      split at h
      · cases h
        assumption
      · exact ih h

theorem fallback_parse_found (text k : List Char)
    (h : findFirstKey button_mappings (lowerList text) = some k) :
    fallback_parse text
      = [ ("action".toList, .jstr k),
          ("reasoning".toList, .jstr text),
          ("scene_description".toList, .jstr "Parsing failed, used fallback.".toList),
          ("confidence".toList, .jint 3) ] := by
  unfold fallback_parse
  rw [h]

theorem fallback_parse_notfound (text : List Char)
    (h : findFirstKey button_mappings (lowerList text) = none) :
    fallback_parse text
      = [ ("action".toList, .jstr "wait".toList),
          ("reasoning".toList, .jstr "Unable to determine action".toList),
          ("scene_description".toList, .jstr text),
          ("confidence".toList, .jint 1) ] := by
  unfold fallback_parse
  rw [h]

/-! # Claim C10 -/

/-- C10: on every text whose lowercased form contains the character `a`,
the fallback parser returns the decision with action exactly `"a"`,
reasoning the full raw text, the fixed parsing-failed scene note, and
confidence 3 — because the 22-key `button_mappings` table is iterated in
insertion order, its first key is the single letter `"a"`, and that key
matches as a bare substring. -/
theorem C10_fallback_returns_a (text : List Char)
    (h : containsSub "a".toList (lowerList text) = true) :
    fallback_parse text
      = [ ("action".toList, .jstr "a".toList),
          ("reasoning".toList, .jstr text),
          ("scene_description".toList, .jstr "Parsing failed, used fallback.".toList),
          ("confidence".toList, .jint 3) ] := by
  apply fallback_parse_found
  rw [button_mappings]
  exact findFirstKey_first _ _ _ _ h

/-- Witness for C10 at the concrete fallback input `"cat"`. -/
theorem C10_fallback_returns_a_witness :
    containsSub "a".toList (lowerList "cat".toList) = true ∧
    fallback_parse "cat".toList
      = [ ("action".toList, .jstr "a".toList),
          ("reasoning".toList, .jstr "cat".toList),
          ("scene_description".toList, .jstr "Parsing failed, used fallback.".toList),
          ("confidence".toList, .jint 3) ] :=
  ⟨by decide, C10_fallback_returns_a "cat".toList (by decide)⟩

/-! # Claim C5 -/

/-- C5 counterexample: the text `"walk left"` contains the substring
`"left"` and has no structure, yet the fallback returns action `"a"` —
the table key `"a"` is scanned first and occurs in `"walk"` — refuting
the claim that any such text yields action `"left"`. -/
theorem C5_left_counterexample :
    containsSub "left".toList (lowerList "walk left".toList) = true ∧
    plookup (fallback_parse "walk left".toList) "action".toList
      = some (.jstr "a".toList) ∧
    plookup (fallback_parse "walk left".toList) "action".toList
      ≠ some (.jstr "left".toList) := by
  decide

/-- C5 (amended): the fallback scans the 22-key vocabulary in table order
with a case-insensitive substring search; the first key found becomes the
action, with reasoning the full raw text and confidence 3; a text
containing `"left"` yields action `"left"` only when none of the six
earlier table keys (`a`, `b`, `start`, `select`, `up`, `down`) occurs in
the lowercased text; and when no vocabulary key occurs at all the result
is action `"wait"`, reasoning `"Unable to determine action"`,
scene_description the raw text, confidence 1. -/
theorem C5_fallback_scan :
    (∀ text k, findFirstKey button_mappings (lowerList text) = some k →
        containsSub k (lowerList text) = true ∧
        fallback_parse text
          = [ ("action".toList, .jstr k),
              ("reasoning".toList, .jstr text),
              ("scene_description".toList, .jstr "Parsing failed, used fallback.".toList),
              ("confidence".toList, .jint 3) ]) ∧
    (∀ text, containsSub "left".toList (lowerList text) = true →
        (∀ k ∈ ["a".toList, "b".toList, "start".toList, "select".toList,
                "up".toList, "down".toList], containsSub k (lowerList text) = false) →
        fallback_parse text
          = [ ("action".toList, .jstr "left".toList),
              ("reasoning".toList, .jstr text),
              ("scene_description".toList, .jstr "Parsing failed, used fallback.".toList),
              ("confidence".toList, .jint 3) ]) ∧
    (∀ text, (∀ k ∈ button_mappings.map Prod.fst, containsSub k (lowerList text) = false) →
        fallback_parse text
          = [ ("action".toList, .jstr "wait".toList),
              ("reasoning".toList, .jstr "Unable to determine action".toList),
              ("scene_description".toList, .jstr text),
              ("confidence".toList, .jint 1) ]) := by
  refine ⟨?_, ?_, ?_⟩
  · intro text k h
    exact ⟨findFirstKey_contains _ _ _ h, fallback_parse_found _ _ h⟩
  · intro text hleft hks
    have h1 := hks "a".toList (by simp)
    have h2 := hks "b".toList (by simp)
    have h3 := hks "start".toList (by simp)
    have h4 := hks "select".toList (by simp)
    have h5 := hks "up".toList (by simp)
    have h6 := hks "down".toList (by simp)
    apply fallback_parse_found
    rw [button_mappings]
    simp only [findFirstKey, h1, h2, h3, h4, h5, h6, hleft, Bool.false_eq_true,
      if_false, if_true]
  · intro text hks
    exact fallback_parse_notfound _ (findFirstKey_none _ _ hks)

/-- Witness for C5's amended theorem at the concrete text `"left"`. -/
theorem C5_fallback_scan_witness :
    fallback_parse "left".toList
      = [ ("action".toList, .jstr "left".toList),
          ("reasoning".toList, .jstr "left".toList),
          ("scene_description".toList, .jstr "Parsing failed, used fallback.".toList),
          ("confidence".toList, .jint 3) ] :=
  C5_fallback_scan.2.1 "left".toList (by decide) (by decide)

/-! # Claim C7 -/

/-- C7 counterexample: `"move_up"` is not one of the 10 canonical tokens,
yet resolution does not signal absent — the source's 22-entry table also
maps the 12 verb aliases, so `"every other string resolves to absent"`
fails. -/
theorem C7_alias_counterexample :
    bmLookup "move_up".toList = some "KEYCODE_DPAD_UP".toList ∧
    "move_up".toList ∉
      ["a".toList, "b".toList, "start".toList, "select".toList, "up".toList,
       "down".toList, "left".toList, "right".toList, "l".toList, "r".toList] := by
  decide

/-- C7 (amended): each of the 10 canonical tokens resolves to its fixed
keycode; strings outside the 22-entry `button_mappings` table (canonical
tokens plus the 12 aliases) resolve to absent, and `send_input` then
returns false without issuing any device command. -/
theorem C7_resolution :
    (bmLookup "a".toList = some "KEYCODE_BUTTON_A".toList ∧
     bmLookup "b".toList = some "KEYCODE_BUTTON_B".toList ∧
     bmLookup "start".toList = some "KEYCODE_BUTTON_START".toList ∧
     bmLookup "select".toList = some "KEYCODE_BUTTON_SELECT".toList ∧
     bmLookup "up".toList = some "KEYCODE_DPAD_UP".toList ∧
     bmLookup "down".toList = some "KEYCODE_DPAD_DOWN".toList ∧
     bmLookup "left".toList = some "KEYCODE_DPAD_LEFT".toList ∧
     bmLookup "right".toList = some "KEYCODE_DPAD_RIGHT".toList ∧
     bmLookup "l".toList = some "KEYCODE_BUTTON_L1".toList ∧
     bmLookup "r".toList = some "KEYCODE_BUTTON_R1".toList) ∧
    (∀ k, k ∉ button_mappings.map Prod.fst →
        bmLookup k = none ∧
        ∀ adb_ok, (send_input_model adb_ok (.jstr k)).1 = false ∧
                  (send_input_model adb_ok (.jstr k)).2 = []) := by
  constructor
  · decide
  · intro k hk
    have hfind : button_mappings.find? (fun p => p.1 = k) = none := by
      rw [List.find?_eq_none]
      intro p hp
      simp only [decide_eq_true_eq]
      intro hpk
      exact hk (by
        rw [← hpk]
        exact List.mem_map_of_mem Prod.fst hp)
    have hbm : bmLookup k = none := by
      rw [bmLookup, hfind]
      rfl
    refine ⟨hbm, fun adb_ok => ?_⟩
    rw [send_input_model, hbm]
    exact ⟨rfl, rfl⟩

/-- Witness for C7's amended theorem at the unknown action `"xyz"`. -/
theorem C7_resolution_witness :
    bmLookup "xyz".toList = none ∧
    (send_input_model true (.jstr "xyz".toList)).1 = false := by
  have h := C7_resolution.2 "xyz".toList (by decide)
  exact ⟨h.1, (h.2 true).1⟩

/-! # Claim C2 -/

/-- C2 counterexample: with the prior flag set and a panic level of 5
(inside the claimed 4-6 dead zone), `update_game_state` clears
`panic_mode` to false — line 186 assigns `panic_mode = panic_level >= 7`
unconditionally, so the dead zone does not preserve the prior value. -/
theorem C2_dead_zone_counterexample :
    ({ initial_game_state with panic_mode := true } : GameState).panic_mode = true ∧
    panic_level_of [("panic_level".toList, .jint 5)] = 5 ∧
    (update_game_state { initial_game_state with panic_mode := true }
        [("panic_level".toList, .jint 5)] []).panic_mode = false := by
  decide

/-- C2 (amended): after every `update_game_state` call, `panic_mode`
equals `panic_level >= 7` outright — true for levels at least 7 and false
otherwise, including the 4-6 range; the explicit clear for levels at most
3 is redundant rather than a hysteresis edge. -/
theorem C2_panic_mode_assignment (s : GameState) (analysis : PyDict) (ts : List Char) :
    (update_game_state s analysis ts).panic_mode
      = decide (panic_level_of analysis ≥ 7) := by
  simp only [update_game_state]
  split_ifs with h1 h2
  · rfl
  · rw [decide_eq_false h1]
  · rfl

/-! # Claim C1 -/

/-- C1 (code bug): the claim states that `stuck_counter` resets to 0 when
the newly decided action differs from the previous `last_action`; but the
source assigns `last_action` (line 179) before the comparison (line 192),
so the comparison always sees the fresh action and the counter increments
on every decision that carries an action key.  Concretely: from
`last_action = "up"`, `stuck_counter = 0`, an update with action `"down"`
produces `stuck_counter = 1` where the claim requires 0. -/
theorem C1_stuck_counter_bug :
    ({ initial_game_state with last_action := .jstr "up".toList } : GameState).stuck_counter
        = 0 ∧
    ({ initial_game_state with last_action := .jstr "up".toList } : GameState).last_action
        = .jstr "up".toList ∧
    plookup [("action".toList, .jstr "down".toList)] "action".toList
        = some (.jstr "down".toList) ∧
    (update_game_state { initial_game_state with last_action := .jstr "up".toList }
        [("action".toList, .jstr "down".toList)] []).stuck_counter = 1 := by
  decide

/-! # Claim C6 -/

theorem stuck_pick_mem (n : Nat) : stuck_actions.getD (n % 6) [] ∈ stuck_actions := by
  have h6 : n % 6 < 6 := Nat.mod_lt _ (by omega)
  set m := n % 6 with hm
  interval_cases m <;> decide

/-- C6: in an iteration whose screenshot succeeded, if the post-update
`stuck_counter` exceeds 10 then the loop issues exactly one corrective
action drawn from the fixed set `up, down, left, right, b, start`, resets
`stuck_counter` to 0, and skips ACTING (the decided action is not also
sent); if the counter is at most 10, no corrective action is issued and
the iteration proceeds to ACTING (the decided action is sent unless it is
`"wait"`). -/
theorem C6_stuck_check (s : GameState) (o : IterOracle) (hso : o.screenshot_ok = true) :
    ((update_game_state s o.analysis o.ts).stuck_counter > 10 →
        (run_iteration s o).1.stuck_counter = 0 ∧
        ∃ a ∈ stuck_actions, (run_iteration s o).2 = [.jstr a]) ∧
    ((update_game_state s o.analysis o.ts).stuck_counter ≤ 10 →
        (run_iteration s o).1 = update_game_state s o.analysis o.ts ∧
        (run_iteration s o).2 = acting_emission o.analysis) := by
  constructor
  · intro hstuck
    simp only [run_iteration, hso, if_true, handle_stuck_state, if_pos hstuck]
    refine ⟨?_, ⟨_, stuck_pick_mem o.pick, ?_⟩⟩ <;> trivial
  · intro hle
    have hns : ¬ ((update_game_state s o.analysis o.ts).stuck_counter > 10) := by omega
    simp only [run_iteration, hso, if_true, handle_stuck_state, if_neg hns]
    constructor <;> trivial

/-- Witness for C6: from `stuck_counter = 10`, one more repeated decision
pushes the counter past 10 and the iteration emits a single corrective
action while resetting the counter. -/
theorem C6_stuck_check_witness :
    ((update_game_state { initial_game_state with stuck_counter := 10 }
        [("action".toList, .jstr "go".toList)] []).stuck_counter > 10) ∧
    (run_iteration { initial_game_state with stuck_counter := 10 }
        ⟨true, [("action".toList, .jstr "go".toList)], 0, []⟩).1.stuck_counter = 0 ∧
    ∃ a ∈ stuck_actions,
      (run_iteration { initial_game_state with stuck_counter := 10 }
          ⟨true, [("action".toList, .jstr "go".toList)], 0, []⟩).2 = [.jstr a] := by
  have h := C6_stuck_check { initial_game_state with stuck_counter := 10 }
      ⟨true, [("action".toList, .jstr "go".toList)], 0, []⟩ rfl
  have hgt : (update_game_state { initial_game_state with stuck_counter := 10 }
      [("action".toList, .jstr "go".toList)] []).stuck_counter > 10 := by decide
  exact ⟨hgt, (h.1 hgt).1, (h.1 hgt).2⟩

/-! # Claim C4 -/

theorem lastN_eq {α : Type} (l : List α) (n : Nat) :
    l.drop (l.length - n) = (l.reverse.take n).reverse := by
  rw [List.reverse_take, List.reverse_reverse, List.length_reverse]

theorem lastN_append {α : Type} (xs ys : List α) (n : Nat) :
    ((xs.drop (xs.length - n)) ++ ys).drop (((xs.drop (xs.length - n)) ++ ys).length - n)
      = (xs ++ ys).drop ((xs ++ ys).length - n) := by
  rw [lastN_eq ((xs.drop (xs.length - n)) ++ ys) n, lastN_eq (xs ++ ys) n, lastN_eq xs n]
  rw [List.reverse_append, List.reverse_append, List.reverse_reverse]
  rw [List.take_append_eq_append_take, List.take_append_eq_append_take]
  rw [List.take_take, Nat.min_eq_left (Nat.sub_le _ _)]

theorem update_history (s : GameState) (a : PyDict) (ts : List Char) :
    (update_game_state s a ts).reasoning_history
      = (s.reasoning_history ++ [histEntry a ts]).drop
          ((s.reasoning_history ++ [histEntry a ts]).length - 50) := by
  simp only [update_game_state]
  split_ifs with h
  · rfl
  · rw [Nat.sub_eq_zero_of_le (by omega), List.drop_zero]

theorem update_history_le (s : GameState) (a : PyDict) (ts : List Char) :
    (update_game_state s a ts).reasoning_history.length ≤ 50 := by
  rw [update_history, List.length_drop]
  omega

theorem runUpdates_history (inputs : List (PyDict × List Char)) (s : GameState)
    (h : s.reasoning_history.length ≤ 50) :
    (runUpdates s inputs).reasoning_history
      = (s.reasoning_history ++ inputs.map (fun p => histEntry p.1 p.2)).drop
          ((s.reasoning_history ++ inputs.map (fun p => histEntry p.1 p.2)).length - 50) := by
  induction inputs generalizing s with
  | nil =>
      simp only [runUpdates, List.foldl_nil, List.map_nil, List.append_nil]
      rw [Nat.sub_eq_zero_of_le h, List.drop_zero]
  | cons p rest ih =>
      have hstep : runUpdates s (p :: rest) = runUpdates (update_game_state s p.1 p.2) rest := by
        simp [runUpdates]
      rw [hstep, ih _ (update_history_le s p.1 p.2), update_history]
      rw [lastN_append (s.reasoning_history ++ [histEntry p.1 p.2])
            (rest.map (fun q => histEntry q.1 q.2)) 50]
      rw [List.append_assoc, List.singleton_append, List.map_cons]

/-- C4: `reasoning_history` never exceeds 50 entries after any
`update_game_state` call, and eviction is strictly FIFO: after 51
sequential updates from the initial state the history is exactly the last
50 of the 51 appended records in chronological order — the oldest record
evicted — so its length is exactly 50. -/
theorem C4_history_fifo :
    (∀ (s : GameState) (a : PyDict) (ts : List Char),
        (update_game_state s a ts).reasoning_history.length ≤ 50) ∧
    (∀ inputs : List (PyDict × List Char), inputs.length = 51 →
        (runUpdates initial_game_state inputs).reasoning_history
          = (inputs.map (fun p => histEntry p.1 p.2)).drop 1 ∧
        (runUpdates initial_game_state inputs).reasoning_history.length = 50) := by
  refine ⟨update_history_le, fun inputs hlen => ?_⟩
  have h := runUpdates_history inputs initial_game_state (by simp [initial_game_state])
  rw [show initial_game_state.reasoning_history = ([] : List PyDict) from rfl,
      List.nil_append, List.length_map, hlen] at h
  rw [show (51 : Nat) - 50 = 1 from rfl] at h
  refine ⟨h, ?_⟩
  rw [h, List.length_drop, List.length_map, hlen]

/-- Witness for C4: 51 identical updates leave exactly 50 history
entries. -/
theorem C4_history_fifo_witness :
    (runUpdates initial_game_state (List.replicate 51 ([], []))).reasoning_history.length
      = 50 :=
  (C4_history_fifo.2 (List.replicate 51 ([], [])) (by simp)).2

/-! # Claim C3 -/

theorem pyFind_ge (l : List Char) (t : Char) : -1 ≤ pyFind l t := by
  induction l with
  | nil => simp [pyFind]
  | cons c rest ih =>
      simp only [pyFind]
      split_ifs <;> omega

theorem pyFind_lt_length (l : List Char) (t : Char) : pyFind l t < (l.length : Int) := by
  induction l with
  | nil => simp [pyFind]
  | cons c rest ih =>
      simp only [pyFind, List.length_cons]
      split_ifs <;> push_cast <;> omega

theorem pyRFind_ge (l : List Char) (t : Char) : -1 ≤ pyRFind l t := by
  simp only [pyRFind]
  split_ifs with h
  · omega
  · have h2 := pyFind_lt_length l.reverse t
    rw [List.length_reverse] at h2
    omega

theorem braceCondition_iff (text : List Char) :
    braceCondition text = true ↔ pyFind text '\x7b' ≠ -1 := by
  unfold braceCondition
  simp only [decide_eq_true_eq]
  constructor
  · exact fun h => h.1
  · intro h
    refine ⟨h, ?_⟩
    have := pyRFind_ge text '\x7d'
    omega

theorem pyFind_drop (l : List Char) (t : Char) (h : pyFind l t ≠ -1) :
    ∃ rest, l.drop (pyFind l t).toNat = t :: rest := by
  induction l with
  | nil => simp [pyFind] at h
  | cons c r ih =>
      by_cases hc : c = t
      · refine ⟨r, ?_⟩
        simp [pyFind, hc]
      · have hr : pyFind r t ≠ -1 := by
          intro habs
          apply h
          simp [pyFind, hc, habs]
        obtain ⟨rest, hrest⟩ := ih hr
        refine ⟨rest, ?_⟩
        have hge := pyFind_ge r t
        have htn : (pyFind (c :: r) t).toNat = (pyFind r t).toNat + 1 := by
          simp only [pyFind, hc, if_false]
          split_ifs with h2
          · exact absurd h2 hr
          · omega
        rw [htn, List.drop_succ_cons, hrest]

theorem decodeSlice_shape (text : List Char) (h : pyFind text '\x7b' ≠ -1) :
    decodeSlice text = [] ∨ ∃ rest, decodeSlice text = '\x7b' :: rest := by
  obtain ⟨tail, htail⟩ := pyFind_drop text '\x7b' h
  unfold decodeSlice pySlice
  rw [List.drop_take, htail]
  cases he : (pyRFind text '\x7d' + 1).toNat - (pyFind text '\x7b').toNat with
  | zero => exact Or.inl rfl
  | succ k => exact Or.inr ⟨tail.take k, rfl⟩

theorem parseObjRest_isObj (fuel : Nat) :
    ∀ (acc : PyDict) (s : List Char) (v : JValue) (r : List Char),
      parseObjRest fuel acc s = some (v, r) → ∃ ms, v = JValue.jobj ms := by
  induction fuel with
  | zero =>
      intro acc s v r h
      simp [parseObjRest] at h
  | succ f ih =>
      intro acc s v r h
      rw [parseObjRest] at h
      repeat' split at h
      all_goals first
        | exact Option.noConfusion h
        | exact ih _ _ _ _ h
        | (cases h; exact ⟨_, rfl⟩)

theorem parseVal_brace_obj (fuel : Nat) (t : List Char) (v : JValue) (r : List Char)
    (h : parseVal fuel ('\x7b' :: t) = some (v, r)) : ∃ ms, v = JValue.jobj ms := by
  cases fuel with
  | zero => simp [parseVal] at h
  | succ f =>
      rw [parseVal] at h
      have hws : skipWs ('\x7b' :: t) = '\x7b' :: t := by
        simp [skipWs, isWsChar]
      rw [hws] at h
      simp only [reduceIte] at h
      repeat' split at h
      all_goals first
        | exact Option.noConfusion h
        | exact parseObjRest_isObj f _ _ _ _ h
        | (cases h; exact ⟨_, rfl⟩)

theorem json_loads_brace_obj (t : List Char) (v : JValue)
    (h : json_loads ('\x7b' :: t) = some v) : ∃ ms, v = JValue.jobj ms := by
  unfold json_loads at h
  split at h
  · next val heq =>
      split at h
      · rw [Option.some.injEq] at h
        subst h
        exact parseVal_brace_obj _ _ _ _ heq
      · exact Option.noConfusion h
  · exact Option.noConfusion h

/-- C3 counterexample: on the text `"\x7ba"` — which has a `\x7b` but no
`\x7d` — the code's branch condition (line 151) holds and structured
decoding is attempted on the (empty) slice, while the spec's
"both braces exist" condition is false; the decode fails and the
fallback is used, so the "attempted exactly when both exist" sentence of
the claim is refuted even though the result still degrades gracefully. -/
theorem C3_attempt_counterexample :
    braceCondition "\x7ba".toList = true ∧
    bracesExist "\x7ba".toList = false ∧
    decodeSlice "\x7ba".toList = [] ∧
    json_loads (decodeSlice "\x7ba".toList) = none ∧
    parse_gemini_response "\x7ba".toList = some (fallback_parse "\x7ba".toList) := by
  decide

/-- C3 (amended): the response parser is total — for every raw text it
returns a usable decision dictionary and never raises — but structured
decoding is attempted exactly when a `\x7b` exists (the `end != -1` half
of the condition is vacuous because `rfind` returns at least `-1`, so
`end = rfind + 1` is at least 0); when no `\x7b` exists, and on every
decode failure, the result is the fallback decision. -/
theorem C3_parser_totality (text : List Char) :
    (∃ d, parse_gemini_response text = some d) ∧
    (braceCondition text = true ↔ pyFind text '\x7b' ≠ -1) ∧
    (pyFind text '\x7b' = -1 → parse_gemini_response text = some (fallback_parse text)) ∧
    (braceCondition text = true → json_loads (decodeSlice text) = none →
        parse_gemini_response text = some (fallback_parse text)) := by
  refine ⟨?_, braceCondition_iff text, ?_, ?_⟩
  · unfold parse_gemini_response
    split_ifs with hb
    · cases hj : json_loads (decodeSlice text) with
      | none => exact ⟨_, rfl⟩
      | some v =>
          have hobj : ∃ ms, v = JValue.jobj ms := by
            rcases decodeSlice_shape text ((braceCondition_iff text).mp hb) with hnil | ⟨rest, hcons⟩
            · rw [hnil] at hj
              rw [show json_loads [] = none from rfl] at hj
              exact Option.noConfusion hj
            · rw [hcons] at hj
              exact json_loads_brace_obj _ _ hj
          obtain ⟨ms, rfl⟩ := hobj
          exact ⟨_, rfl⟩
    · exact ⟨_, rfl⟩
  · intro hnone
    have hbf : ¬ braceCondition text = true := by
      rw [braceCondition_iff]
      simp [hnone]
    unfold parse_gemini_response
    rw [if_neg hbf]
  · intro hb hj
    unfold parse_gemini_response
    rw [if_pos hb, hj]

/-- Witness for C3's amended theorem: a brace-free text routes to the
fallback. -/
theorem C3_parser_totality_witness :
    parse_gemini_response "go".toList = some (fallback_parse "go".toList) :=
  (C3_parser_totality "go".toList).2.2.1 (by decide)

/-! # Claim C9 -/

theorem plookup_append_single (d : PyDict) (k k' : List Char) (v : JValue) :
    plookup (d ++ [(k, v)]) k'
      = match plookup d k' with
        | some x => some x
        | none => if k = k' then some v else none := by
  induction d with
  | nil => simp [plookup]
  | cons p rest ih =>
      obtain ⟨k0, v0⟩ := p
      by_cases h0 : k0 = k'
      · simp [plookup, h0]
      · simp only [List.cons_append, plookup, if_neg h0]
        exact ih

theorem plookup_setdefault_same (d : PyDict) (k : List Char) (v : JValue) :
    plookup (setdefault d k v) k = some ((plookup d k).getD v) := by
  unfold setdefault
  split_ifs with h
  · cases hh : plookup d k with
    | none => rw [hh] at h; simp at h
    | some x => simp
  · cases hh : plookup d k with
    | none => rw [plookup_append_single, hh]; simp
    | some x => rw [hh] at h; simp at h

theorem plookup_setdefault_other (d : PyDict) (k k' : List Char) (v : JValue)
    (hne : k ≠ k') : plookup (setdefault d k v) k' = plookup d k' := by
  unfold setdefault
  split_ifs with h
  · rfl
  · rw [plookup_append_single]
    cases plookup d k' <;> simp [hne]

theorem backfill_action (d : PyDict) :
    plookup (backfill d) "action".toList
      = some ((plookup d "action".toList).getD notProvided) := by
  unfold backfill
  rw [plookup_setdefault_other _ _ _ _ (by decide),
      plookup_setdefault_other _ _ _ _ (by decide),
      plookup_setdefault_same]

theorem backfill_reasoning (d : PyDict) :
    plookup (backfill d) "reasoning".toList
      = some ((plookup d "reasoning".toList).getD notProvided) := by
  unfold backfill
  rw [plookup_setdefault_other _ _ _ _ (by decide), plookup_setdefault_same,
      plookup_setdefault_other _ _ _ _ (by decide)]

theorem backfill_scene (d : PyDict) :
    plookup (backfill d) "scene_description".toList
      = some ((plookup d "scene_description".toList).getD notProvided) := by
  unfold backfill
  rw [plookup_setdefault_same,
      plookup_setdefault_other _ _ _ _ (by decide),
      plookup_setdefault_other _ _ _ _ (by decide)]

theorem backfill_other (d : PyDict) (k : List Char)
    (h1 : k ≠ "action".toList) (h2 : k ≠ "reasoning".toList)
    (h3 : k ≠ "scene_description".toList) :
    plookup (backfill d) k = plookup d k := by
  unfold backfill
  rw [plookup_setdefault_other _ _ _ _ (Ne.symm h3),
      plookup_setdefault_other _ _ _ _ (Ne.symm h2),
      plookup_setdefault_other _ _ _ _ (Ne.symm h1)]

/-- C9: on a successful structured decode the parser returns the decoded
dictionary with exactly the three fields `action`, `reasoning`,
`scene_description` backfilled by `"Not provided"` when absent — present
values (and every other key) pass through unmodified — and in particular
the well-formed input `\x7b"action":"b","reasoning":"x"\x7d` yields
action `"b"`, reasoning `"x"`, and scene_description `"Not provided"`. -/
theorem C9_backfill :
    (∀ text fields, braceCondition text = true →
        json_loads (decodeSlice text) = some (.jobj fields) →
        parse_gemini_response text = some (backfill fields) ∧
        (∀ k, k ≠ "action".toList → k ≠ "reasoning".toList →
            k ≠ "scene_description".toList →
            plookup (backfill fields) k = plookup fields k) ∧
        plookup (backfill fields) "action".toList
          = some ((plookup fields "action".toList).getD notProvided) ∧
        plookup (backfill fields) "reasoning".toList
          = some ((plookup fields "reasoning".toList).getD notProvided) ∧
        plookup (backfill fields) "scene_description".toList
          = some ((plookup fields "scene_description".toList).getD notProvided)) ∧
    parse_gemini_response "\x7b\"action\":\"b\",\"reasoning\":\"x\"\x7d".toList
      = some [("action".toList, .jstr "b".toList),
              ("reasoning".toList, .jstr "x".toList),
              ("scene_description".toList, notProvided)] := by
  constructor
  · intro text fields hb hj
    refine ⟨?_, fun k => backfill_other fields k, backfill_action fields,
        backfill_reasoning fields, backfill_scene fields⟩
    unfold parse_gemini_response
    rw [if_pos hb, hj]
  · decide

/-- Witness for C9 at the concrete structured input
`\x7b"action":"b","reasoning":"x"\x7d`. -/
theorem C9_backfill_witness :
    parse_gemini_response "\x7b\"action\":\"b\",\"reasoning\":\"x\"\x7d".toList
      = some (backfill [("action".toList, .jstr "b".toList),
                        ("reasoning".toList, .jstr "x".toList)]) :=
  (C9_backfill.1 "\x7b\"action\":\"b\",\"reasoning\":\"x\"\x7d".toList
      [("action".toList, .jstr "b".toList), ("reasoning".toList, .jstr "x".toList)]
      (by decide) (by decide)).1

/-! # Claim C8: round-trip machinery for the numeral serializer -/

theorem digitVal_digitChar (n : Nat) (h : n < 10) : digitVal (digitChar n) = n := by
  unfold digitChar
  split_ifs with h0 h1 h2 h3 h4 h5 h6 h7 h8
  all_goals first
    | (subst_vars; decide)
    | (have h9 : n = 9 := by omega
       subst h9
       decide)

theorem digitChar_isDigit (n : Nat) : (digitChar n).isDigit = true := by
  unfold digitChar
  split_ifs <;> decide

theorem digitChar_eq_zero (n : Nat) (h : digitChar n = '0') : n = 0 := by
  by_contra hne
  unfold digitChar at h
  split_ifs at h <;> first | exact hne (by assumption) | simp at h

theorem digitsVal_append_digit (a : List Char) (c : Char) :
    digitsVal (a ++ [c]) = digitsVal a * 10 + digitVal c := by
  unfold digitsVal
  rw [List.foldl_append]
  rfl

theorem natDumpFuel_spec : ∀ (f n : Nat), n ≤ f →
    digitsVal (natDumpFuel f n) = n ∧
    (∀ c ∈ natDumpFuel f n, c.isDigit = true) ∧
    natDumpFuel f n ≠ [] ∧
    (∀ t, natDumpFuel f n = '0' :: t → n = 0) := by
  intro f
  induction f with
  | zero =>
      intro n hn
      have h0 : n = 0 := by omega
      subst h0
      refine ⟨by decide, ?_, by decide, ?_⟩
      · intro c hc
        simp only [natDumpFuel] at hc
        rw [List.mem_singleton] at hc
        subst hc
        exact digitChar_isDigit 0
      · intro t ht
        rfl
  | succ f ih =>
      intro n hn
      by_cases hlt : n < 10
      · simp only [natDumpFuel, if_pos hlt]
        refine ⟨?_, ?_, by simp, ?_⟩
        · show digitsVal ([] ++ [digitChar n]) = n
          rw [digitsVal_append_digit]
          simp [digitsVal, digitVal_digitChar n hlt]
        · intro c hc
          rw [List.mem_singleton] at hc
          subst hc
          exact digitChar_isDigit n
        · intro t ht
          have : digitChar n = '0' := by
            have := List.cons.injEq (digitChar n) [] '0' t ▸ ht
            exact (List.cons.inj ht).1
          exact digitChar_eq_zero n this
      · simp only [natDumpFuel, if_neg hlt]
        have hdiv : n / 10 ≤ f := by omega
        obtain ⟨ihv, ihd, ihne, ihz⟩ := ih (n / 10) hdiv
        refine ⟨?_, ?_, by simp [ihne], ?_⟩
        · rw [digitsVal_append_digit, ihv, digitVal_digitChar _ (Nat.mod_lt _ (by omega))]
          omega
        · intro c hc
          rw [List.mem_append] at hc
          rcases hc with hc | hc
          · exact ihd c hc
          · rw [List.mem_singleton] at hc
            subst hc
            exact digitChar_isDigit _
        · intro t ht
          exfalso
          cases hh : natDumpFuel f (n / 10) with
          | nil => exact ihne hh
          | cons c0 t0 =>
              rw [hh, List.cons_append] at ht
              have hc0 : c0 = '0' := (List.cons.inj ht).1
              subst hc0
              have : n / 10 = 0 := ihz t0 hh
              omega

theorem natDump_spec (n : Nat) :
    digitsVal (natDump n) = n ∧
    (∀ c ∈ natDump n, c.isDigit = true) ∧
    natDump n ≠ [] ∧
    (∀ t, natDump n = '0' :: t → n = 0) :=
  natDumpFuel_spec n n (le_refl n)

theorem takeWhile_append_of_all {p : Char → Bool} :
    ∀ (a b : List Char), (∀ c ∈ a, p c = true) →
      (∀ c t, b = c :: t → p c = false) →
      (a ++ b).takeWhile p = a ∧ (a ++ b).dropWhile p = b := by
  intro a
  induction a with
  | nil =>
      intro b _ hb
      cases b with
      | nil => exact ⟨rfl, rfl⟩
      | cons c t =>
          simp only [List.nil_append, List.takeWhile_cons, List.dropWhile_cons,
            hb c t rfl]
          exact ⟨rfl, rfl⟩
  | cons c a ih =>
      intro b ha hb
      have hc : p c = true := ha c (by simp)
      obtain ⟨h1, h2⟩ := ih b (fun c' hc' => ha c' (by simp [hc'])) hb
      simp only [List.cons_append, List.takeWhile_cons, List.dropWhile_cons, hc]
      simp [h1, h2]

theorem isDigit_ne_of (c d : Char) (h : c.isDigit = true) (hd : d.isDigit = false) :
    c ≠ d := by
  intro he
  subst he
  rw [h] at hd
  exact Bool.noConfusion hd

theorem parseNatTok_natDump (n : Nat) (rest : List Char) (hrest : tokEnd rest = true) :
    parseNatTok (natDump n ++ rest) = some (n, rest) := by
  obtain ⟨hval, hdig, hne, hzero⟩ := natDump_spec n
  have hb : ∀ c t, rest = c :: t → c.isDigit = false := by
    intro c t ht
    subst ht
    simp only [tokEnd, Bool.not_eq_true', Bool.or_eq_false_iff] at hrest
    exact hrest.1.1.1
  obtain ⟨htake, hdrop⟩ := takeWhile_append_of_all (natDump n) rest hdig hb
  have hlz : ¬ ((natDump n).head? = some '0' ∧ 1 < (natDump n).length) := by
    rintro ⟨hhead, hlen⟩
    by_cases hn : n = 0
    · subst hn
      have h01 : natDump 0 = ['0'] := rfl
      rw [h01] at hlen
      simp at hlen
    · cases hh : natDump n with
      | nil => exact hne hh
      | cons c0 t0 =>
          rw [hh] at hhead
          simp only [List.head?_cons, Option.some.injEq] at hhead
          exact hn (hzero t0 (by rw [hh, hhead]))
  unfold parseNatTok
  rw [htake, hdrop]
  rw [if_neg (by simp [hne]), if_neg hlz, hval]
  cases rest with
  | nil => rfl
  | cons c t =>
      simp only [tokEnd, Bool.not_eq_true', Bool.or_eq_false_iff,
        decide_eq_false_iff_not] at hrest
      obtain ⟨⟨⟨hd, h1⟩, h2⟩, h3⟩ := hrest
      split
      · rename_i heq
        injection heq with hc _
        exact absurd hc h1
      · rename_i heq
        injection heq with hc _
        exact absurd hc h2
      · rename_i heq
        injection heq with hc _
        exact absurd hc h3
      · rfl

theorem parseNum_intDump (n : Int) (rest : List Char) (hrest : tokEnd rest = true) :
    parseNum (intDump n ++ rest) = some (JValue.jint n, rest) := by
  by_cases hneg : n < 0
  · have hid : intDump n = '-' :: natDump (-n).toNat := by rw [intDump, if_pos hneg]
    rw [hid, List.cons_append]
    have h1 : parseNum ('-' :: (natDump (-n).toNat ++ rest))
        = (parseNatTok (natDump (-n).toNat ++ rest)).map
            (fun p => (JValue.jint (-(p.1 : Int)), p.2)) := by
      simp [parseNum]
    rw [h1, parseNatTok_natDump _ rest hrest]
    have hco : (((-n).toNat : Nat) : Int) = -n := Int.toNat_of_nonneg (by omega)
    simp [hco]
  · have hid : intDump n = natDump n.toNat := by rw [intDump, if_neg hneg]
    rw [hid]
    cases hh : natDump n.toNat with
    | nil => exact absurd hh (natDump_spec n.toNat).2.2.1
    | cons c t =>
        have hc : c.isDigit = true := (natDump_spec n.toNat).2.1 c (by rw [hh]; simp)
        rw [List.cons_append]
        have h1 : parseNum (c :: (t ++ rest))
            = (parseNatTok (c :: (t ++ rest))).map
                (fun p => (JValue.jint (p.1 : Int), p.2)) := by
          simp only [parseNum]
          rw [if_neg (isDigit_ne_of c '-' hc (by decide))]
        rw [h1, ← List.cons_append, ← hh, parseNatTok_natDump _ rest hrest]
        simp [Int.toNat_of_nonneg (by omega : (0:Int) ≤ n)]

theorem escapeChar_plain (c : Char) (h : plainChar c = true) (h1 : c ≠ '"')
    (h2 : c ≠ '\\') : escapeChar c = [c] := by
  have hv : 32 ≤ c.toNat ∧ c.toNat ≤ 126 := by
    simpa [plainChar] using h
  unfold escapeChar
  rw [if_neg h1, if_neg h2,
      if_neg (by rintro rfl; revert hv; decide),
      if_neg (by rintro rfl; revert hv; decide),
      if_neg (by rintro rfl; revert hv; decide),
      if_neg (by rintro rfl; revert hv; decide),
      if_neg (by rintro rfl; revert hv; decide),
      if_neg (by omega)]

theorem parseStringRest_escape (s : List Char) :
    ∀ (fuel : Nat) (rest : List Char), plainStr s = true →
      (escapeStr s).length < fuel →
      parseStringRest fuel (escapeStr s ++ '"' :: rest) = some (s, rest) := by
  induction s with
  | nil =>
      intro fuel rest _ hf
      cases fuel with
      | zero => omega
      | succ f =>
          show parseStringRest (f + 1) ('"' :: rest) = some ([], rest)
          rfl
  | cons c cs ih =>
      intro fuel rest h hf
      have hc : plainChar c = true := by
        simp only [plainStr, List.all_cons, Bool.and_eq_true] at h
        exact h.1
      have hcs : plainStr cs = true := by
        simp only [plainStr, List.all_cons, Bool.and_eq_true] at h
        exact h.2
      cases fuel with
      | zero => omega
      | succ f =>
          by_cases hq : c = '"'
          · subst hq
            have hE : escapeStr ('"' :: cs) = '\\' :: '"' :: escapeStr cs := rfl
            rw [hE] at hf ⊢
            simp only [List.length_cons] at hf
            have hstep : ∀ t, parseStringRest (f + 1) ('\\' :: '"' :: t)
                = (parseStringRest f t).map (fun p => ('"' :: p.1, p.2)) := fun t => rfl
            rw [List.cons_append, List.cons_append, hstep,
                ih f rest hcs (by omega)]
            rfl
          · by_cases hbs : c = '\\'
            · subst hbs
              have hE : escapeStr ('\\' :: cs) = '\\' :: '\\' :: escapeStr cs := rfl
              rw [hE] at hf ⊢
              simp only [List.length_cons] at hf
              have hstep : ∀ t, parseStringRest (f + 1) ('\\' :: '\\' :: t)
                  = (parseStringRest f t).map (fun p => ('\\' :: p.1, p.2)) := fun t => rfl
              rw [List.cons_append, List.cons_append, hstep,
                  ih f rest hcs (by omega)]
              rfl
            · have hE : escapeStr (c :: cs) = c :: escapeStr cs := by
                show escapeChar c ++ escapeStr cs = _
                rw [escapeChar_plain c hc hq hbs]
                rfl
              rw [hE] at hf ⊢
              simp only [List.length_cons] at hf
              have hv : 32 ≤ c.toNat ∧ c.toNat ≤ 126 := by
                simpa [plainChar] using hc
              rw [List.cons_append, parseStringRest.eq_def]
              dsimp only
              rw [if_neg hq, if_neg hbs, if_neg (by omega), ih f rest hcs (by omega)]
              rfl

theorem isDigit_not_ws (c : Char) (h : c.isDigit = true) : isWsChar c = false := by
  unfold isWsChar
  have h1 : c ≠ ' ' := by rintro rfl; exact absurd h (by decide)
  have h2 : c ≠ '\t' := by rintro rfl; exact absurd h (by decide)
  have h3 : c ≠ '\n' := by rintro rfl; exact absurd h (by decide)
  have h4 : c ≠ '\r' := by rintro rfl; exact absurd h (by decide)
  simp [h1, h2, h3, h4]

theorem skipWs_not_ws (c : Char) (t : List Char) (h : isWsChar c = false) :
    skipWs (c :: t) = c :: t := by
  rw [skipWs, h]
  rfl

theorem jdump_head_spec (v : JValue) :
    ∃ c t, jdump v = c :: t ∧ isWsChar c = false ∧ c ≠ ']' := by
  cases v with
  | jnull => exact ⟨'n', _, rfl, by decide, by decide⟩
  | jbool b => cases b with
      | true => exact ⟨'t', _, rfl, by decide, by decide⟩
      | false => exact ⟨'f', _, rfl, by decide, by decide⟩
  | jint n =>
      by_cases hneg : n < 0
      · refine ⟨'-', natDump (-n).toNat, ?_, by decide, by decide⟩
        show intDump n = _
        rw [intDump, if_pos hneg]
      · obtain ⟨_, hdig, hne, _⟩ := natDump_spec n.toNat
        cases hh : natDump n.toNat with
        | nil => exact absurd hh hne
        | cons c t =>
            have hc : c.isDigit = true := hdig c (by rw [hh]; simp)
            refine ⟨c, t, ?_, isDigit_not_ws c hc, isDigit_ne_of c ']' hc (by decide)⟩
            show intDump n = _
            rw [intDump, if_neg hneg, hh]
  | jstr s => exact ⟨'"', _, rfl, by decide, by decide⟩
  | jarr xs => cases xs with
      | nil => exact ⟨'[', _, rfl, by decide, by decide⟩
      | cons x t => exact ⟨'[', _, rfl, by decide, by decide⟩
  | jobj ms => cases ms with
      | nil => exact ⟨'\x7b', _, rfl, by decide, by decide⟩
      | cons m t => exact ⟨'\x7b', _, rfl, by decide, by decide⟩

theorem tokEnd_arrTail (xs : List JValue) (rest : List Char) :
    tokEnd (jdumpArrTail xs ++ ']' :: rest) = true := by
  cases xs with
  | nil => rfl
  | cons y ys => rfl

theorem tokEnd_objTail (ms : List (List Char × JValue)) (rest : List Char) :
    tokEnd (jdumpObjTail ms ++ '\x7d' :: rest) = true := by
  cases ms with
  | nil => rfl
  | cons m t => rfl

theorem jwfList_cons (x : JValue) (xs : List JValue) (h : jwfList (x :: xs) = true) :
    jwf x = true ∧ jwfList xs = true := by
  simpa [jwfList, Bool.and_eq_true] using h

theorem jwfPairs_cons (k : List Char) (v : JValue) (ms : List (List Char × JValue))
    (h : jwfPairs ((k, v) :: ms) = true) :
    plainStr k = true ∧ jwf v = true ∧ jwfPairs ms = true := by
  simpa [jwfPairs, Bool.and_eq_true, and_assoc] using h

theorem keyNotIn_append (k : List Char) (a b : PyDict) :
    keyNotIn k (a ++ b) = (keyNotIn k a && keyNotIn k b) := by
  induction a with
  | nil => simp [keyNotIn]
  | cons p t ih =>
      obtain ⟨k0, v0⟩ := p
      simp [keyNotIn, ih, Bool.and_assoc]

theorem objInsert_append (acc : PyDict) (k : List Char) (v : JValue)
    (h : keyNotIn k acc = true) : objInsert acc k v = acc ++ [(k, v)] := by
  induction acc with
  | nil => rfl
  | cons p t ih =>
      obtain ⟨k0, v0⟩ := p
      simp only [keyNotIn, Bool.and_eq_true, Bool.not_eq_true'] at h
      have hne : k0 ≠ k := by
        intro he
        rw [he] at h
        simp at h
      simp only [objInsert, if_neg hne]
      rw [ih h.2]
      rfl

theorem nodup_key_notin (acc : PyDict) : ∀ (k : List Char) (v : JValue) (ms : PyDict),
    nodupKeysB (acc ++ (k, v) :: ms) = true → keyNotIn k acc = true := by
  induction acc with
  | nil => intros; rfl
  | cons p t ih =>
      obtain ⟨k0, v0⟩ := p
      intro k v ms h
      simp only [List.cons_append, nodupKeysB, Bool.and_eq_true] at h
      obtain ⟨hni, hrest⟩ := h
      rw [show t.append ((k, v) :: ms) = t ++ ((k, v) :: ms) from rfl] at hni hrest
      rw [keyNotIn_append] at hni
      simp only [Bool.and_eq_true] at hni
      have h2 := hni.2
      simp only [keyNotIn, Bool.and_eq_true, Bool.not_eq_true'] at h2
      have hkk : (k == k0) = false := h2.1
      simp only [keyNotIn, Bool.and_eq_true, Bool.not_eq_true']
      refine ⟨?_, ih k v ms hrest⟩
      rw [beq_eq_false_iff_ne] at hkk ⊢
      exact fun he => hkk he.symm

theorem parseArrRest_jdump (xs : List JValue) :
    ∀ (acc : List JValue) (fuel : Nat) (rest : List Char),
      jwfList xs = true →
      (∀ x ∈ xs, ∀ (fl : Nat) (r : List Char), (jdump x).length < fl →
          tokEnd r = true → parseVal fl (jdump x ++ r) = some (x, r)) →
      (jdumpArrTail xs).length < fuel → tokEnd rest = true →
      parseArrRest fuel acc (jdumpArrTail xs ++ ']' :: rest)
        = some (.jarr (acc ++ xs), rest) := by
  induction xs with
  | nil =>
      intro acc fuel rest _ _ hf _
      cases fuel with
      | zero => omega
      | succ f =>
          show parseArrRest (f + 1) acc (']' :: rest) = some (JValue.jarr (acc ++ []), rest)
          rw [List.append_nil]
          rfl
  | cons y ys ih =>
      intro acc fuel rest hwl helem hf hrest
      cases fuel with
      | zero => omega
      | succ f =>
          obtain ⟨hwy, hwys⟩ := jwfList_cons y ys hwl
          have hd : jdumpArrTail (y :: ys) ++ ']' :: rest
              = ',' :: (jdump y ++ (jdumpArrTail ys ++ (']' :: rest))) := by
            show (',' :: (jdump y ++ jdumpArrTail ys)) ++ ']' :: rest = _
            simp [List.append_assoc]
          have hlen : (jdumpArrTail (y :: ys)).length
              = (jdump y).length + (jdumpArrTail ys).length + 1 := by
            show (',' :: (jdump y ++ jdumpArrTail ys)).length = _
            simp [List.length_append]
          rw [hd]
          have hred : ∀ Z, parseArrRest (f + 1) acc (',' :: Z)
              = (match parseVal f Z with
                 | none => none
                 | some (v, r2) => parseArrRest f (acc ++ [v]) r2) := fun Z => rfl
          rw [hred]
          rw [helem y (by simp) f (jdumpArrTail ys ++ (']' :: rest)) (by omega)
                (tokEnd_arrTail ys rest)]
          show parseArrRest f (acc ++ [y]) (jdumpArrTail ys ++ (']' :: rest))
              = some (JValue.jarr (acc ++ y :: ys), rest)
          rw [ih (acc ++ [y]) f rest hwys
                (fun x hx => helem x (by simp [hx])) (by omega) hrest]
          rw [List.append_assoc, List.singleton_append]

theorem parseObjRest_jdump (ms : List (List Char × JValue)) :
    ∀ (acc : PyDict) (fuel : Nat) (rest : List Char),
      jwfPairs ms = true →
      (∀ k v, (k, v) ∈ ms → ∀ (fl : Nat) (r : List Char), (jdump v).length < fl →
          tokEnd r = true → parseVal fl (jdump v ++ r) = some (v, r)) →
      nodupKeysB (acc ++ ms) = true →
      (jdumpObjTail ms).length < fuel → tokEnd rest = true →
      parseObjRest fuel acc (jdumpObjTail ms ++ '\x7d' :: rest)
        = some (.jobj (acc ++ ms), rest) := by
  induction ms with
  | nil =>
      intro acc fuel rest _ _ _ hf _
      cases fuel with
      | zero => omega
      | succ f =>
          show parseObjRest (f + 1) acc ('\x7d' :: rest)
              = some (JValue.jobj (acc ++ []), rest)
          rw [List.append_nil]
          rfl
  | cons m ms' ih =>
      obtain ⟨k, v⟩ := m
      intro acc fuel rest hwp helem hnd hf hrest
      cases fuel with
      | zero => omega
      | succ f =>
          obtain ⟨hkp, hwv, hwms⟩ := jwfPairs_cons k v ms' hwp
          have hd : jdumpObjTail ((k, v) :: ms') ++ '\x7d' :: rest
              = ',' :: ('"' :: (escapeStr k ++
                  ('"' :: (':' :: (jdump v ++ (jdumpObjTail ms' ++ ('\x7d' :: rest))))))) := by
            show (',' :: (dumpMember (k, v) ++ jdumpObjTail ms')) ++ '\x7d' :: rest = _
            show (',' :: (('"' :: (escapeStr k ++ ('"' :: ':' :: jdump v)))
                ++ jdumpObjTail ms')) ++ '\x7d' :: rest = _
            simp [List.append_assoc]
          have hlen : (jdumpObjTail ((k, v) :: ms')).length
              = (escapeStr k).length + (jdump v).length + (jdumpObjTail ms').length + 4 := by
            show (',' :: (dumpMember (k, v) ++ jdumpObjTail ms')).length = _
            show (',' :: (('"' :: (escapeStr k ++ ('"' :: ':' :: jdump v)))
                ++ jdumpObjTail ms')).length = _
            simp only [List.length_cons, List.length_append]
            omega
          rw [hd]
          have hred : ∀ W, parseObjRest (f + 1) acc (',' :: ('"' :: W))
              = (match parseStringRest (W.length + 1) W with
                 | none => none
                 | some (key, r3) =>
                   match skipWs r3 with
                   | ':' :: r4 =>
                     match parseVal f r4 with
                     | none => none
                     | some (w, r5) => parseObjRest f (objInsert acc key w) r5
                   | _ => none) := fun W => rfl
          rw [hred]
          rw [parseStringRest_escape k _ _ hkp
                (by simp only [List.length_append, List.length_cons]; omega)]
          show (match parseVal f (jdump v ++ (jdumpObjTail ms' ++ ('\x7d' :: rest))) with
                | none => none
                | some (w, r5) => parseObjRest f (objInsert acc k w) r5)
              = some (JValue.jobj (acc ++ (k, v) :: ms'), rest)
          rw [helem k v (by simp) f (jdumpObjTail ms' ++ ('\x7d' :: rest)) (by omega)
                (tokEnd_objTail ms' rest)]
          show parseObjRest f (objInsert acc k v) (jdumpObjTail ms' ++ ('\x7d' :: rest))
              = some (JValue.jobj (acc ++ (k, v) :: ms'), rest)
          rw [objInsert_append acc k v (nodup_key_notin acc k v ms' hnd)]
          have hnd2 : nodupKeysB ((acc ++ [(k, v)]) ++ ms') = true := by
            rw [List.append_assoc, List.singleton_append]
            exact hnd
          rw [ih (acc ++ [(k, v)]) f rest hwms
                (fun k' v' hm => helem k' v' (by simp [hm])) hnd2 (by omega) hrest]
          rw [List.append_assoc, List.singleton_append]

theorem jwfList_mem (xs : List JValue) : ∀ x ∈ xs, jwfList xs = true → jwf x = true := by
  induction xs with
  | nil => intro x hx; cases hx
  | cons y ys ih =>
      intro x hx h
      obtain ⟨hy, hys⟩ := jwfList_cons y ys h
      rcases List.mem_cons.mp hx with rfl | hx'
      · exact hy
      · exact ih x hx' hys

theorem jwfPairs_mem (ms : List (List Char × JValue)) :
    ∀ k v, (k, v) ∈ ms → jwfPairs ms = true → jwf v = true := by
  induction ms with
  | nil => intro k v hm; cases hm
  | cons m ms' ih =>
      obtain ⟨k0, v0⟩ := m
      intro k v hm h
      obtain ⟨_, hv0, hms⟩ := jwfPairs_cons k0 v0 ms' h
      rcases List.mem_cons.mp hm with heq | hm'
      · cases heq
        exact hv0
      · exact ih k v hm' hms

theorem sizeOf_lt_jarr (x : JValue) (xs : List JValue) (hx : x ∈ xs) :
    sizeOf x < sizeOf (JValue.jarr xs) := by
  have h1 := List.sizeOf_lt_of_mem hx
  simp only [JValue.jarr.sizeOf_spec]
  omega

theorem sizeOf_lt_jobj (k : List Char) (v : JValue) (ms : List (List Char × JValue))
    (hm : (k, v) ∈ ms) : sizeOf v < sizeOf (JValue.jobj ms) := by
  have h1 := List.sizeOf_lt_of_mem hm
  have h2 : sizeOf (k, v) = 1 + sizeOf k + sizeOf v := by simp
  simp only [JValue.jobj.sizeOf_spec]
  omega

theorem parseVal_jdump (N : Nat) :
    ∀ v : JValue, sizeOf v ≤ N → jwf v = true →
      ∀ (fuel : Nat) (rest : List Char), (jdump v).length < fuel → tokEnd rest = true →
        parseVal fuel (jdump v ++ rest) = some (v, rest) := by
  induction N using Nat.strong_induction_on with
  | _ N IH =>
      intro v hsize hwf fuel rest hfuel hrest
      cases v with
      | jnull =>
          cases fuel with
          | zero => omega
          | succ f =>
              rw [show jdump JValue.jnull = ['n', 'u', 'l', 'l'] from by decide]
              rfl
      | jbool b =>
          cases b with
          | true =>
              cases fuel with
              | zero => omega
              | succ f =>
                  rw [show jdump (JValue.jbool true) = ['t', 'r', 'u', 'e'] from by decide]
                  rfl
          | false =>
              cases fuel with
              | zero => omega
              | succ f =>
                  rw [show jdump (JValue.jbool false) = ['f', 'a', 'l', 's', 'e'] from by decide]
                  rfl
      | jint n =>
          cases fuel with
          | zero => omega
          | succ f =>
              have hjd : jdump (JValue.jint n) = intDump n := by simp [jdump]
              rw [hjd]
              by_cases hneg : n < 0
              · have hid : intDump n = '-' :: natDump (-n).toNat := by
                  rw [intDump, if_pos hneg]
                rw [hid, List.cons_append]
                have hred : ∀ X, parseVal (f + 1) ('-' :: X) = parseNum ('-' :: X) :=
                  fun X => rfl
                rw [hred, ← List.cons_append, ← hid]
                exact parseNum_intDump n rest hrest
              · have hid : intDump n = natDump n.toNat := by rw [intDump, if_neg hneg]
                obtain ⟨hval, hdig, hne, hz⟩ := natDump_spec n.toNat
                cases hh : natDump n.toNat with
                | nil => exact absurd hh hne
                | cons c t =>
                    have hc : c.isDigit = true := hdig c (by rw [hh]; simp)
                    rw [hid, hh, List.cons_append]
                    rw [parseVal, skipWs_not_ws c _ (isDigit_not_ws c hc)]
                    dsimp only
                    rw [if_neg (isDigit_ne_of c '\x7b' hc (by decide)),
                        if_neg (isDigit_ne_of c '[' hc (by decide)),
                        if_neg (isDigit_ne_of c '"' hc (by decide)),
                        if_neg (isDigit_ne_of c 't' hc (by decide)),
                        if_neg (isDigit_ne_of c 'f' hc (by decide)),
                        if_neg (isDigit_ne_of c 'n' hc (by decide)),
                        if_pos (by simp [hc] : (decide (c = '-') || c.isDigit) = true)]
                    rw [← List.cons_append, ← hh, ← hid]
                    exact parseNum_intDump n rest hrest
      | jstr s =>
          cases fuel with
          | zero => omega
          | succ f =>
              have hwfs : plainStr s = true := by simpa [jwf] using hwf
              have hjd : jdump (JValue.jstr s) = '"' :: (escapeStr s ++ ['"']) := by
                simp [jdump]
              rw [hjd, List.cons_append, List.append_assoc, List.singleton_append]
              have hred : ∀ X, parseVal (f + 1) ('"' :: X)
                  = (parseStringRest (X.length + 1) X).map
                      (fun p => (JValue.jstr p.1, p.2)) := fun X => rfl
              rw [hred, parseStringRest_escape s _ rest hwfs
                    (by simp only [List.length_append, List.length_cons]; omega)]
              rfl
      | jarr xs =>
          cases xs with
          | nil =>
              cases fuel with
              | zero => omega
              | succ f =>
                  rw [show jdump (JValue.jarr []) = ['[', ']'] from by decide]
                  rfl
          | cons x xs' =>
              cases fuel with
              | zero => omega
              | succ f =>
                  have hwl : jwfList (x :: xs') = true := by simpa [jwf] using hwf
                  obtain ⟨hwx, hwxs⟩ := jwfList_cons x xs' hwl
                  have hjd : jdump (JValue.jarr (x :: xs'))
                      = '[' :: (jdump x ++ (jdumpArrTail xs' ++ [']'])) := by simp [jdump]
                  rw [hjd] at hfuel ⊢
                  simp only [List.length_cons, List.length_append] at hfuel
                  rw [List.cons_append, List.append_assoc, List.append_assoc,
                      List.singleton_append]
                  obtain ⟨c1, t1, hct1, hnws1, hnrb1⟩ := jdump_head_spec x
                  have hZ : jdump x ++ (jdumpArrTail xs' ++ (']' :: rest))
                      = c1 :: (t1 ++ (jdumpArrTail xs' ++ (']' :: rest))) := by
                    rw [hct1]
                    rfl
                  rw [parseVal, skipWs_not_ws '[' _ (by decide)]
                  dsimp only
                  rw [if_neg (by decide : ¬('[' : Char) = '\x7b'), if_pos rfl]
                  rw [hZ, skipWs_not_ws c1 _ hnws1]
                  dsimp only
                  rw [if_neg hnrb1]
                  have hx := IH (sizeOf x) (by
                      have := sizeOf_lt_jarr x (x :: xs') (by simp)
                      omega) x (le_refl _) hwx f (jdumpArrTail xs' ++ (']' :: rest))
                    (by omega) (tokEnd_arrTail xs' rest)
                  rw [hZ] at hx
                  rw [hx]
                  dsimp only
                  rw [parseArrRest_jdump xs' [x] f rest hwxs
                        (fun y hy fl r hb hr => IH (sizeOf y) (by
                            have := sizeOf_lt_jarr y (x :: xs') (by simp [hy])
                            omega) y (le_refl _) (jwfList_mem xs' y hy hwxs) fl r hb hr)
                        (by omega) hrest]
                  rw [List.singleton_append]
      | jobj ms =>
          cases ms with
          | nil =>
              cases fuel with
              | zero => omega
              | succ f =>
                  rw [show jdump (JValue.jobj []) = ['\x7b', '\x7d'] from by decide]
                  rfl
          | cons m ms' =>
              obtain ⟨k, v⟩ := m
              cases fuel with
              | zero => omega
              | succ f =>
                  have hwo : nodupKeysB ((k, v) :: ms') = true ∧ jwfPairs ((k, v) :: ms') = true := by
                    simpa [jwf, Bool.and_eq_true] using hwf
                  obtain ⟨hnd, hwp⟩ := hwo
                  obtain ⟨hkp, hwv, hwms⟩ := jwfPairs_cons k v ms' hwp
                  have hjd : jdump (JValue.jobj ((k, v) :: ms'))
                      = '\x7b' :: (dumpMember (k, v) ++ (jdumpObjTail ms' ++ ['\x7d'])) := by
                    simp [jdump]
                  rw [hjd] at hfuel ⊢
                  have hdm : dumpMember (k, v) = '"' :: (escapeStr k ++ ('"' :: ':' :: jdump v)) := by
                    simp [jdump, dumpMember]
                  rw [hdm] at hfuel ⊢
                  simp only [List.length_cons, List.length_append] at hfuel
                  have hD : ('\x7b' :: (('"' :: (escapeStr k ++ ('"' :: ':' :: jdump v)))
                        ++ (jdumpObjTail ms' ++ ['\x7d']))) ++ rest
                      = '\x7b' :: ('"' :: (escapeStr k ++
                          ('"' :: (':' :: (jdump v ++ (jdumpObjTail ms' ++ ('\x7d' :: rest))))))) := by
                    simp [List.append_assoc]
                  rw [hD]
                  have hred : ∀ W, parseVal (f + 1) ('\x7b' :: ('"' :: W))
                      = (match parseStringRest (W.length + 1) W with
                         | none => none
                         | some (key, r3) =>
                           match skipWs r3 with
                           | ':' :: r4 =>
                             match parseVal f r4 with
                             | none => none
                             | some (w, r5) => parseObjRest f (objInsert [] key w) r5
                           | _ => none) := fun W => rfl
                  rw [hred]
                  rw [parseStringRest_escape k _ _ hkp
                        (by simp only [List.length_append, List.length_cons]; omega)]
                  show (match parseVal f (jdump v ++ (jdumpObjTail ms' ++ ('\x7d' :: rest))) with
                        | none => none
                        | some (w, r5) => parseObjRest f (objInsert [] k w) r5)
                      = some (JValue.jobj ((k, v) :: ms'), rest)
                  rw [IH (sizeOf v) (by
                        have := sizeOf_lt_jobj k v ((k, v) :: ms') (by simp)
                        omega) v (le_refl _) hwv f (jdumpObjTail ms' ++ ('\x7d' :: rest))
                        (by omega) (tokEnd_objTail ms' rest)]
                  show parseObjRest f [(k, v)] (jdumpObjTail ms' ++ ('\x7d' :: rest))
                      = some (JValue.jobj ((k, v) :: ms'), rest)
                  rw [parseObjRest_jdump ms' [(k, v)] f rest hwms
                        (fun k' v' hm fl r hb hr => IH (sizeOf v') (by
                            have := sizeOf_lt_jobj k' v' ((k, v) :: ms') (by simp [hm])
                            omega) v' (le_refl _) (jwfPairs_mem ms' k' v' hm hwms) fl r hb hr)
                        (by rw [List.singleton_append]; exact hnd) (by omega) hrest]
                  rw [List.singleton_append]

theorem json_loads_jdump (v : JValue) (h : jwf v = true) : json_loads (jdump v) = some v := by
  unfold json_loads
  have hinv := parseVal_jdump (sizeOf v) v (le_refl _) h ((jdump v).length + 1) []
    (by omega) rfl
  rw [List.append_nil] at hinv
  rw [hinv]
  rfl

theorem decodeDicts_map (hs : List PyDict) : decodeDicts (hs.map JValue.jobj) = some hs := by
  induction hs with
  | nil => rfl
  | cons d t ih => simp [decodeDicts, ih]

theorem plookup_cons_of_ne (k0 k : List Char) (v0 : JValue) (t : PyDict)
    (h : ¬ k0 = k) : plookup ((k0, v0) :: t) k = plookup t k := by
  simp [plookup, h]

theorem plookup_cons_self (k : List Char) (v0 : JValue) (t : PyDict) :
    plookup ((k, v0) :: t) k = some v0 := by
  simp [plookup]

theorem jsonToState_stateToJson (s : GameState) : jsonToState (stateToJson s) = some s := by
  have hst : stateToJson s = JValue.jobj
      [ ("current_location".toList, s.current_location),
        ("party_pokemon".toList, .jarr s.party_pokemon),
        ("inventory".toList, .jarr s.inventory),
        ("objectives".toList, .jarr s.objectives),
        ("panic_mode".toList, .jbool s.panic_mode),
        ("stuck_counter".toList, .jint s.stuck_counter),
        ("last_action".toList, s.last_action),
        ("reasoning_history".toList, .jarr (s.reasoning_history.map .jobj)) ] := rfl
  set stDict : PyDict :=
      [ ("current_location".toList, s.current_location),
        ("party_pokemon".toList, .jarr s.party_pokemon),
        ("inventory".toList, .jarr s.inventory),
        ("objectives".toList, .jarr s.objectives),
        ("panic_mode".toList, .jbool s.panic_mode),
        ("stuck_counter".toList, .jint s.stuck_counter),
        ("last_action".toList, s.last_action),
        ("reasoning_history".toList, .jarr (s.reasoning_history.map .jobj)) ] with hdict
  have h1 : plookup stDict "current_location".toList = some (s.current_location) := by
    rw [plookup_cons_self]
  have h2 : plookup stDict "party_pokemon".toList = some (JValue.jarr s.party_pokemon) := by
    rw [plookup_cons_of_ne _ _ _ _ (by decide), plookup_cons_self]
  have h3 : plookup stDict "inventory".toList = some (JValue.jarr s.inventory) := by
    rw [plookup_cons_of_ne _ _ _ _ (by decide), plookup_cons_of_ne _ _ _ _ (by decide), plookup_cons_self]
  have h4 : plookup stDict "objectives".toList = some (JValue.jarr s.objectives) := by
    rw [plookup_cons_of_ne _ _ _ _ (by decide), plookup_cons_of_ne _ _ _ _ (by decide), plookup_cons_of_ne _ _ _ _ (by decide), plookup_cons_self]
  have h5 : plookup stDict "panic_mode".toList = some (JValue.jbool s.panic_mode) := by
    rw [plookup_cons_of_ne _ _ _ _ (by decide), plookup_cons_of_ne _ _ _ _ (by decide), plookup_cons_of_ne _ _ _ _ (by decide), plookup_cons_of_ne _ _ _ _ (by decide), plookup_cons_self]
  have h6 : plookup stDict "stuck_counter".toList = some (JValue.jint s.stuck_counter) := by
    rw [plookup_cons_of_ne _ _ _ _ (by decide), plookup_cons_of_ne _ _ _ _ (by decide), plookup_cons_of_ne _ _ _ _ (by decide), plookup_cons_of_ne _ _ _ _ (by decide), plookup_cons_of_ne _ _ _ _ (by decide), plookup_cons_self]
  have h7 : plookup stDict "last_action".toList = some (s.last_action) := by
    rw [plookup_cons_of_ne _ _ _ _ (by decide), plookup_cons_of_ne _ _ _ _ (by decide), plookup_cons_of_ne _ _ _ _ (by decide), plookup_cons_of_ne _ _ _ _ (by decide), plookup_cons_of_ne _ _ _ _ (by decide), plookup_cons_of_ne _ _ _ _ (by decide), plookup_cons_self]
  have h8 : plookup stDict "reasoning_history".toList = some (JValue.jarr (s.reasoning_history.map JValue.jobj)) := by
    rw [plookup_cons_of_ne _ _ _ _ (by decide), plookup_cons_of_ne _ _ _ _ (by decide), plookup_cons_of_ne _ _ _ _ (by decide), plookup_cons_of_ne _ _ _ _ (by decide), plookup_cons_of_ne _ _ _ _ (by decide), plookup_cons_of_ne _ _ _ _ (by decide), plookup_cons_of_ne _ _ _ _ (by decide), plookup_cons_self]
  rw [hst, jsonToState, h1, h2, h3, h4, h5, h6, h7, h8]
  dsimp only
  rw [decodeDicts_map]
  rfl

/-- C8: saving the game state and loading the file back reproduces an
equal state whenever the state is serializable in the model (printable
ASCII strings, unique dictionary keys — which every state the Python
program builds satisfies); loading a missing file or one whose content
does not decode leaves the state exactly as it was (the fresh default
when called at startup) and never raises. -/
theorem C8_save_load_roundtrip :
    (∀ s s₀ : GameState, jwf (stateToJson s) = true →
        load_game_state (some (save_game_state s)) s₀ = some s) ∧
    (∀ s : GameState, load_game_state none s = some s) ∧
    (∀ (s : GameState) (txt : List Char), json_loads txt = none →
        load_game_state (some txt) s = some s) := by
  refine ⟨?_, fun s => rfl, ?_⟩
  · intro s s₀ hwf
    show (match json_loads (save_game_state s) with
          | none => some s₀
          | some v => jsonToState v) = some s
    rw [show save_game_state s = jdump (stateToJson s) from rfl,
        json_loads_jdump _ hwf]
    exact jsonToState_stateToJson s
  · intro s txt hj
    show (match json_loads txt with
          | none => some s
          | some v => jsonToState v) = some s
    rw [hj]

/-- Witness for C8: the initial state round-trips, and an undecodable
file leaves the state unchanged. -/
theorem C8_save_load_roundtrip_witness :
    load_game_state (some (save_game_state initial_game_state)) initial_game_state
      = some initial_game_state ∧
    load_game_state (some "not json".toList) initial_game_state
      = some initial_game_state :=
  ⟨C8_save_load_roundtrip.1 initial_game_state initial_game_state (by decide),
   C8_save_load_roundtrip.2.2 initial_game_state "not json".toList (by decide)⟩
